import Mathlib

/-!
Verification development for the report generator (`report_generator.py`).

The Python module builds a report (cover page, sections with paragraphs,
bullets, tables and figures, placeholder substitution) in two backends:
a Word/COM backend and an HTML backend.  This file shallowly embeds the
data model and the functions the specification's claims are about:

* Python values (`PyVal`) and dictionaries (`Obj`), with Python's
  truthiness, `dict.get`, item assignment and `str()` conversion;
* the filesystem-and-temp-file state (`FS`) threaded through figure
  normalization, with Python exception propagation (`ES` monad,
  `tryFinallyES` for `try/finally` blocks);
* the HTML backend: `renderTable`, `renderFigures`, `figureSrc`,
  `escapeOrPlaceholder`, `renderPlaceholder`, `replacePlaceholdersHtml`,
  `renderSection`, `renderCoverPage`, `generateHtmlReport`;
* the Word backend's pure layout core: `addTable`, `addFigureRow`,
  `addFigures` and the row grouping `layoutFigureRows`;
* the options resolver `_merge_options` as `mergeOptions`, over an
  explicit heap (`MStore`) of nested dictionaries so that Python's
  shallow `dict.copy()` and the in-place `setdefault` mutation of a
  caller-supplied nested `Margins` dictionary are represented faithfully.
-/

namespace ReportGen

/-- Python runtime values, restricted to the shapes the report generator
handles: `None`, booleans, integers, floats (modelled as rationals),
strings, dictionaries (as insertion-ordered key/value lists with unique
keys), lists, and matplotlib-like figure handles (objects recognized only
through their `savefig` capability, identified here by a numeric id). -/
inductive PyVal where
  | none
  | bool (b : Bool)
  | int (n : Int)
  | rat (q : ℚ)
  | str (s : String)
  | dict (es : List (String × PyVal))
  | list (xs : List PyVal)
  | figure (id : Nat)

/-- A Python dictionary value: insertion-ordered key/value pairs. -/
abbrev Obj := List (String × PyVal)

/-- `d.get(k)`: first binding of `k`, if any. -/
def dget (d : Obj) (k : String) : Option PyVal :=
  (d.find? (fun e => e.1 == k)).map (fun e => e.2)

/-- `d[k] = v`: update in place when the key exists (keeping its
position), append otherwise. -/
def dset (d : Obj) (k : String) (v : PyVal) : Obj :=
  if (d.find? (fun e => e.1 == k)).isSome then
    d.map (fun e => if e.1 == k then (k, v) else e)
  else d ++ [(k, v)]

/-- Python truthiness of a value (`bool(v)`). -/
def truthy : PyVal → Bool
  | .none => false
  | .bool b => b
  | .int n => decide (n ≠ 0)
  | .rat q => decide (q ≠ 0)
  | .str s => !s.isEmpty
  | .dict es => !es.isEmpty
  | .list xs => !xs.isEmpty
  | .figure _ => true

/-- Decimal rendering of a rational whose denominator divides a power of
ten, mirroring Python's `str()` on the float literals the module uses
(e.g. `str(1.15) == "1.15"`); other denominators fall back to a fraction
rendering (no such value appears in the module or its claims). -/
def ratRepr (q : ℚ) : String :=
  if q.den = 1 then toString q.num
  else if (10000000 : Int) % (q.den : Int) = 0 then
    let scaled : Int := q.num * ((10000000 : Int) / (q.den : Int))
    let sign := if scaled < 0 then "-" else ""
    let digits := toString scaled.natAbs
    let padded := if digits.length < 8 then
      String.mk (List.replicate (8 - digits.length) '0') ++ digits else digits
    let intPart := padded.take (padded.length - 7)
    let fracAll := padded.drop (padded.length - 7)
    let frac := String.mk (fracAll.data.reverse.dropWhile (fun c => c == '0')).reverse
    sign ++ intPart ++ "." ++ frac
  else toString q.num ++ "/" ++ toString q.den

/-- Python `str(v)` for the scalar values the renderers stringify.  The
report content the claims quantify over stringifies only scalars;
composite values (whose Python rendering is a `repr`-style dump) are
abstracted to marker strings, and no claim or concrete input below
evaluates `pyStr` on them. -/
def pyStr : PyVal → String
  | .none => "None"
  | .bool true => "True"
  | .bool false => "False"
  | .int n => toString n
  | .rat q => ratRepr q
  | .str s => s
  | .dict _ => "<dict>"
  | .list _ => "<list>"
  | .figure id => "<Figure " ++ toString id ++ ">"

/-- Python `==` on the scalar values used as figure row indices and cell
keys: numeric values compare by value (`True == 1`), strings by content.
Composite values (unhashable in a Python `set`, where they would raise
`TypeError`) compare unequal here; the theorems below restrict row
indices to integers, matching the schema. -/
def pyEq (a b : PyVal) : Bool :=
  match a, b with
  | .int m, .int n => decide (m = n)
  | .int m, .rat q => decide ((m : ℚ) = q)
  | .rat q, .int n => decide (q = (n : ℚ))
  | .rat p, .rat q => decide (p = q)
  | .bool x, .bool y => decide (x = y)
  | .bool x, .int n => decide ((if x then (1 : Int) else 0) = n)
  | .int n, .bool x => decide (n = (if x then (1 : Int) else 0))
  | .bool x, .rat q => decide ((if x then (1 : ℚ) else 0) = q)
  | .rat q, .bool x => decide (q = (if x then (1 : ℚ) else 0))
  | .str s, .str t => decide (s = t)
  | .none, .none => true
  | _, _ => false

/-- Python `<=` for sorting row indices: defined on numbers and on
string pairs (Python's comparable cases); heterogeneous or composite
pairs — a `TypeError` in Python — are outside the model and the claims. -/
def pyLe (a b : PyVal) : Bool :=
  match a, b with
  | .int m, .int n => decide (m ≤ n)
  | .int m, .rat q => decide ((m : ℚ) ≤ q)
  | .rat q, .int n => decide (q ≤ (n : ℚ))
  | .rat p, .rat q => decide (p ≤ q)
  | .bool x, .bool y => decide ((if x then (1 : Int) else 0) ≤ (if y then 1 else 0))
  | .bool x, .int n => decide ((if x then (1 : Int) else 0) ≤ n)
  | .int n, .bool x => decide (n ≤ (if x then (1 : Int) else 0))
  | .str s, .str t => decide (s ≤ t)
  | _, _ => false

/-- Deduplication keeping first occurrences, under Python `==`
(the effect of `set(...)` on hashable values, up to order). -/
def dedupFirst : List PyVal → List PyVal
  | [] => []
  | a :: r => a :: (dedupFirst r).filter (fun b => !pyEq a b)

/-- Insertion into a `pyLe`-sorted list. -/
def insertPy (a : PyVal) : List PyVal → List PyVal
  | [] => [a]
  | b :: t => if pyLe a b then a :: b :: t else b :: insertPy a t

/-- Insertion sort by Python `<=`. -/
def sortPy (l : List PyVal) : List PyVal := l.foldr insertPy []

/-- Python's `sorted(set(l))`: the distinct values of `l` in ascending
order. -/
def sortedDedup (l : List PyVal) : List PyVal := sortPy (dedupFirst l)

/-- Prepend a character to the first chunk of a chunk list. -/
def consHead (c : Char) : List (List Char) → List (List Char)
  | [] => [[c]]
  | ch :: t => (c :: ch) :: t

/-- Greedy left-to-right split of a character list at the occurrences of
the non-empty pattern `pat`, fuel-indexed (any `fuel ≥ s.length` gives
the intended behaviour; the wrapper passes `s.length`). -/
def splitFuel (pat : List Char) : Nat → List Char → List (List Char)
  | _, [] => [[]]
  | 0, s => [s]
  | fuel + 1, c :: rest =>
    if !pat.isEmpty && pat.isPrefixOf (c :: rest) then
      [] :: splitFuel pat fuel ((c :: rest).drop pat.length)
    else
      consHead c (splitFuel pat fuel rest)

/-- The chunks of `s` between the non-overlapping, greedily matched
occurrences of `pat` (the decomposition performed by Python's
`str.replace`; the empty pattern matches at every position). -/
def pySplitL (pat s : List Char) : List (List Char) :=
  if pat.isEmpty then ([] :: s.map (fun c => [c])) ++ [[]]
  else splitFuel pat s.length s

/-- Replacement on character lists, fuel-indexed companion of
`splitFuel`. -/
def replaceFuel (pat rep : List Char) : Nat → List Char → List Char
  | _, [] => []
  | 0, s => s
  | fuel + 1, c :: rest =>
    if !pat.isEmpty && pat.isPrefixOf (c :: rest) then
      rep ++ replaceFuel pat rep fuel ((c :: rest).drop pat.length)
    else
      c :: replaceFuel pat rep fuel rest

/-- Python's `s.replace(pat, rep)` on character lists: every greedily
matched, non-overlapping occurrence of `pat` is replaced by `rep`. -/
def pyReplaceL (pat rep s : List Char) : List Char :=
  if pat.isEmpty then rep ++ (s.map (fun c => c :: rep)).flatten
  else replaceFuel pat rep s.length s

/-- Python's `s.replace(pat, rep)` on strings. -/
def pyReplaceS (s pat rep : String) : String := ⟨pyReplaceL pat.data rep.data s.data⟩

/-- Join chunks with a separator (used to characterize `pyReplaceL`). -/
def joinWith (r : List Char) : List (List Char) → List Char
  | [] => []
  | [a] => a
  | a :: b :: t => a ++ r ++ joinWith r (b :: t)

/-- Python's `html.escape(s)` with its default `quote=True`: the five
character replacements in CPython's order. -/
def htmlEscape (s : String) : String :=
  pyReplaceS (pyReplaceS (pyReplaceS (pyReplaceS (pyReplaceS
    s "&" "&amp;") "<" "&lt;") ">" "&gt;") "\"" "&quot;") "\x27" "&#x27;"

/-! ## Runtime errors, filesystem state, and the effect monad -/

/-- Python exceptions raised by the embedded code paths. -/
inductive RErr where
  | valueError (msg : String)
  | typeError (msg : String)
  | ioError (path : String)
  | keyError (key : String)
deriving DecidableEq, Repr

/-- Filesystem state threaded through a render call: the files on disk
(path with byte content) and a counter producing the fresh names
returned by `tempfile.mktemp`. -/
structure FS where
  files : List (String × List Nat)
  tempCounter : Nat
deriving DecidableEq, Repr

/-- Effectful computation over the filesystem that may raise: the state
is kept on both the success and the exception path, since a Python
exception does not roll back file effects. -/
def ES (α : Type) : Type := FS → Except RErr α × FS

instance : Monad ES where
  pure a := fun fs => (.ok a, fs)
  bind x f := fun fs =>
    match x fs with
    | (.ok a, fs') => f a fs'
    | (.error e, fs') => (.error e, fs')

/-- Lift a pure fallible computation. -/
def liftE (r : Except RErr α) : ES α := fun fs => (r, fs)

/-- Raise an exception. -/
def esThrow (e : RErr) : ES α := fun fs => (.error e, fs)

/-- Python `try: body finally: fin` — `fin` runs on both exits, and an
exception raised by `fin` supersedes the body's outcome. -/
def tryFinallyES (body : ES α) (fin : ES Unit) : ES α := fun fs =>
  match body fs with
  | (.ok a, fs') =>
    (match fin fs' with
     | (.ok _, fs'') => (.ok a, fs'')
     | (.error e, fs'') => (.error e, fs''))
  | (.error e, fs') =>
    (match fin fs' with
     | (.ok _, fs'') => (.error e, fs'')
     | (.error e2, fs'') => (.error e2, fs''))

/-- `os.path.isfile` on the modelled filesystem. -/
def fsIsFile (fs : FS) (p : String) : Bool :=
  (fs.files.find? (fun e => e.1 == p)).isSome

/-- `os.path.isfile` as an effect. -/
def pathIsFile (p : String) : ES Bool := fun fs => (.ok (fsIsFile fs p), fs)

/-- `open(p, "rb").read()`. -/
def readFileBin (p : String) : ES (List Nat) := fun fs =>
  match fs.files.find? (fun e => e.1 == p) with
  | some e => (.ok e.2, fs)
  | none => (.error (.ioError p), fs)

/-- Write (create or overwrite) a file. -/
def writeFile (p : String) (content : List Nat) : ES Unit := fun fs =>
  (.ok (), { fs with files := fs.files.filter (fun e => !(e.1 == p)) ++ [(p, content)] })

/-- `os.remove(p)` with `_delete_temp_files`'s `except FileNotFoundError:
pass` — deleting a missing file is a no-op. -/
def removeFile (p : String) : ES Unit := fun fs =>
  (.ok (), { fs with files := fs.files.filter (fun e => !(e.1 == p)) })

/-- `tempfile.mktemp(suffix=".png")`: a fresh unique path (the file is
not created by `mktemp` itself). -/
def mktempPng : ES String := fun fs =>
  (.ok ("/tmp/pytmp" ++ toString fs.tempCounter ++ ".png"),
   { fs with tempCounter := fs.tempCounter + 1 })

/-- The bytes a matplotlib-like handle writes via `savefig`; the content
is external to this module, so any injective-enough model works. -/
def figBytes (id : Nat) : List Nat := [137, 80, 78, 71, id]

/-- `candidate.savefig(path)`. -/
def savefig (id : Nat) (p : String) : ES Unit := writeFile p (figBytes id)

/-- `os.path.abspath`, with `/work` standing for the process's current
directory. -/
def abspath (p : String) : String :=
  if "/".data.isPrefixOf p.data then p else "/work/" ++ p

/-! ## Conversions between Python values and typed shapes -/

/-- Iterating a Python value (`for x in v`): lists yield their elements,
strings their characters, dicts their keys; other values raise
`TypeError`. -/
def pyIter : PyVal → Except RErr (List PyVal)
  | .list xs => .ok xs
  | .str s => .ok (s.data.map (fun c => .str ⟨[c]⟩))
  | .dict es => .ok (es.map (fun e => .str e.1))
  | _ => .error (.typeError "not iterable")

/-- `len(v)` for sized values. -/
def pyLen : PyVal → Except RErr Nat
  | .list xs => .ok xs.length
  | .str s => .ok s.length
  | .dict es => .ok es.length
  | _ => .error (.typeError "object has no len()")

/-- A value used where only a `str` is accepted (e.g. `open`). -/
def asStr : PyVal → Except RErr String
  | .str s => .ok s
  | _ => .error (.typeError "expected str")

/-- A value used where a mapping is required (`dict(figure)`,
`table_def.get`, ...). -/
def asObj : PyVal → Except RErr Obj
  | .dict es => .ok es
  | _ => .error (.typeError "expected dict")

/-- `v is None`. -/
def isNoneVal : PyVal → Bool
  | .none => true
  | _ => false

/-! ## Resolved options as seen by the renderers

`generate_word_report` and `generate_html_report` first run
`_merge_options` (embedded further below over an explicit heap) and then
hand the resolved dictionary to the renderers, which read the fields
listed here; `ROptions` is that resolved dictionary projected to those
fields.  The `Option` fields are the ones `_merge_options` does not
default, read with `.get`. -/
structure ROptions where
  headingFontName : PyVal := .str "Arial"
  headingFontSize : PyVal := .int 16
  bodyFontName : PyVal := .str "Arial"
  bodyFontSize : PyVal := .int 11
  lineSpacing : PyVal := .rat (mkRat 23 20)
  tableStyle : PyVal := .str "Table Grid"
  author : Option PyVal := none
  company : Option PyVal := none
  embedImages : Option PyVal := none
  placeholders : Option Obj := none

/-! ## Figure resource manager (`_normalize_figures`, `_ensure_figure_path`,
`_delete_temp_files`) -/

/-- `_looks_like_matplotlib`: `hasattr(obj, "savefig")`. -/
def looksLikeMatplotlib : PyVal → Bool
  | .figure _ => true
  | _ => false

/-- The message of the `ValueError` raised by `_ensure_figure_path`. -/
def figureErrorMsg : String :=
  "Figure entries must provide an existing file path or matplotlib figure handle"

/-- `_ensure_figure_path(fig, temp_files)`: resolve an existing path to
an absolute one, else materialize a plottable handle into a fresh
temporary PNG (recording it in `temp_files`), else raise `ValueError`. -/
def ensureFigurePath (fig : Obj) (tempFiles : List String) : ES (Obj × List String) := do
  let pathVal := (dget fig "Path").getD .none
  let existing ← pathIsFile (pyStr pathVal)
  if truthy pathVal && existing then
    pure (dset fig "Path" (.str (abspath (pyStr pathVal))), tempFiles)
  else
    let candidate := if truthy ((dget fig "FigureHandle").getD .none)
      then (dget fig "FigureHandle").getD .none
      else (dget fig "Path").getD .none
    if !(isNoneVal candidate) && looksLikeMatplotlib candidate then
      match candidate with
      | .figure id => do
          let tempPath ← mktempPng
          let tempAbs := abspath tempPath
          savefig id tempAbs
          pure (dset fig "Path" (.str tempAbs), tempFiles ++ [tempAbs])
      | _ => esThrow (.valueError figureErrorMsg)
    else
      esThrow (.valueError figureErrorMsg)

/-- Loop body of `_normalize_figures`: each figure is shallow-copied
(`dict(figure)`) and resolved, threading the shared `temp_files` list. -/
def normalizeFiguresAux : List PyVal → List Obj → List String → ES (List Obj × List String)
  | [], acc, tempFiles => pure (acc, tempFiles)
  | figure :: rest, acc, tempFiles => do
      let figObj ← liftE (asObj figure)
      let (nf, tempFiles') ← ensureFigurePath figObj tempFiles
      normalizeFiguresAux rest (acc ++ [nf]) tempFiles'

/-- `_normalize_figures(figures)`. -/
def normalizeFigures (figures : List PyVal) : ES (List Obj × List String) :=
  normalizeFiguresAux figures [] []

/-- `_delete_temp_files(temp_files)`. -/
def deleteTempFiles : List String → ES Unit
  | [] => pure ()
  | p :: rest => do
      removeFile p
      deleteTempFiles rest

/-- The effective row index of a normalized figure:
`fig.get("RowIndex", 1) or 1`. -/
def effRowIdx (fig : Obj) : PyVal :=
  let v := (dget fig "RowIndex").getD (.int 1)
  if truthy v then v else .int 1

/-- The row grouping shared verbatim by `_add_figures`,
`_add_figures_at_range` and `_render_figures`:
`row_indices = [fig.get("RowIndex", 1) or 1 for fig in normalized]`,
then for each `row` in `sorted(set(row_indices))` the stable sublist
`[fig for fig, idx in zip(normalized, row_indices) if idx == row]`. -/
def layoutFigureRows (normalized : List Obj) : List (PyVal × List Obj) :=
  let rowIndices := normalized.map effRowIdx
  (sortedDedup rowIndices).map (fun row =>
    (row, ((normalized.zip rowIndices).filter (fun p => pyEq p.2 row)).map (fun p => p.1)))

/-! ## HTML backend -/

/-- `TABLE_BORDER_STYLE`. -/
def tableBorderStyle : String := "1px solid #999"

/-- The `table_style` string used by both `_render_table` and
`_render_figure_row`. -/
def htmlTableStyle : String :=
  "border-collapse:collapse; width:100%; margin:12px 0; border: " ++ tableBorderStyle ++ ";"

/-- The `cell_style` of `_render_table`. -/
def cellStyleOf (opts : ROptions) : String :=
  "border: " ++ tableBorderStyle ++ "; padding:6px; font-family:" ++ pyStr opts.bodyFontName ++
    ", sans-serif; font-size:" ++ pyStr opts.bodyFontSize ++ "pt;"

/-- Header cells of `_render_table` (`<th>`, bold, escaped). -/
def renderHeaderCells (cellStyle : String) : List PyVal → String
  | [] => ""
  | v :: rest =>
    "<th style=\"" ++ cellStyle ++ "; font-weight:bold;\">" ++ htmlEscape (pyStr v) ++ "</th>" ++
      renderHeaderCells cellStyle rest

/-- Body cells of one row of `_render_table` (`<td>`, escaped). -/
def renderBodyCells (cellStyle : String) : List PyVal → String
  | [] => ""
  | v :: rest =>
    "<td style=\"" ++ cellStyle ++ "\">" ++ htmlEscape (pyStr v) ++ "</td>" ++
      renderBodyCells cellStyle rest

/-- Body rows of `_render_table`. -/
def renderBodyRows (cellStyle : String) : List PyVal → Except RErr String
  | [] => .ok ""
  | row :: rest => do
      let rv ← pyIter row
      let restHtml ← renderBodyRows cellStyle rest
      .ok ("<tr>" ++ renderBodyCells cellStyle rv ++ "</tr>" ++ restHtml)

/-- `_render_table(table_def, options)`: empty string when `Rows` is
absent or falsy, else a bordered table with an optional bold header row
and one `<tr>` per body row. -/
def renderTable (tableDef : Obj) (opts : ROptions) : Except RErr String :=
  let rowsVal := (dget tableDef "Rows").getD .none
  if !truthy rowsVal then .ok ""
  else do
    let rowsData ← pyIter rowsVal
    let headerVal := (dget tableDef "Header").getD .none
    let cellStyle := cellStyleOf opts
    let headHtml ← if truthy headerVal then do
        let header ← pyIter headerVal
        pure ("<thead><tr>" ++ renderHeaderCells cellStyle header ++ "</tr></thead>")
      else pure ""
    let bodyHtml ← renderBodyRows cellStyle rowsData
    .ok ("<table style=\"" ++ htmlTableStyle ++ "\">" ++ headHtml ++ "<tbody>" ++ bodyHtml ++
      "</tbody></table>")

/-- Base64 alphabet. -/
def b64Chars : List Char :=
  "ABCDEFGHIJKLMNOPQRSTUVWXYZabcdefghijklmnopqrstuvwxyz0123456789+/".data

/-- Sextet to base64 character. -/
def b64Char (n : Nat) : Char := b64Chars.getD n 'A'

/-- Base64 encoding of a byte list (3-byte groups, `=` padding),
`base64.b64encode`. -/
def b64chunks : List Nat → List Char
  | [] => []
  | [a] => [b64Char (a / 4), b64Char (a % 4 * 16), '=', '=']
  | [a, b] => [b64Char (a / 4), b64Char (a % 4 * 16 + b / 16), b64Char (b % 16 * 4), '=']
  | a :: b :: c :: rest =>
    [b64Char (a / 4), b64Char (a % 4 * 16 + b / 16), b64Char (b % 16 * 4 + c / 64),
      b64Char (c % 64)] ++ b64chunks rest

/-- `base64.b64encode(bytes).decode("ascii")`. -/
def b64encode (bytes : List Nat) : String := ⟨b64chunks (bytes.map (fun b => b % 256))⟩

/-- `path.lower().endswith(".png")`. -/
def pngSuffix (p : String) : Bool :=
  ".png".data.isSuffixOf (p.data.map Char.toLower)

/-- `_figure_src(fig, options)`: empty for a falsy path; a base64 data
URI when the figure's `Embed` (falling back to the global `EmbedImages`)
is truthy; the resolved path otherwise. -/
def figureSrc (fig : Obj) (opts : ROptions) : ES String := do
  let embed := (dget fig "Embed").getD (opts.embedImages.getD (.bool false))
  let pathVal := (dget fig "Path").getD .none
  if !truthy pathVal then pure ""
  else if truthy embed then do
    let p ← liftE (asStr pathVal)
    let bytes ← readFileBin p
    let mime := if pngSuffix p then "image/png" else "image/jpeg"
    pure ("data:" ++ mime ++ ";base64," ++ b64encode bytes)
  else pure (pyStr pathVal)

/-- The escaped caption of `_render_figure_row`:
`html.escape(str(fig.get("Caption", ""))) if fig.get("Caption") else ""`. -/
def figCaption (fig : Obj) : String :=
  if truthy ((dget fig "Caption").getD .none) then
    htmlEscape (pyStr ((dget fig "Caption").getD (.str "")))
  else ""

/-- The `cell_style` of `_render_figure_row`. -/
def figCellStyle : String :=
  "padding:8px; text-align:center; border:" ++ tableBorderStyle ++ ";"

/-- The `<td>` cells of `_render_figure_row`. -/
def renderFigCells : List Obj → ROptions → ES String
  | [], _ => pure ""
  | fig :: rest, opts => do
      let src ← figureSrc fig opts
      let caption := figCaption fig
      let imgTag := "<img src=\"" ++ src ++ "\" alt=\"" ++ caption ++
        "\" style=\"max-width:100%; height:auto; display:block; margin:auto;\">"
      let captionTag := if caption.isEmpty then ""
        else "<div style=\"text-align:center; margin-top:6px;\">" ++ caption ++ "</div>"
      let restHtml ← renderFigCells rest opts
      pure ("<td style=\"" ++ figCellStyle ++ "\">" ++ imgTag ++ captionTag ++ "</td>" ++ restHtml)

/-- `_render_figure_row(figure_row, options)`. -/
def renderFigureRow (figureRow : List Obj) (opts : ROptions) : ES String :=
  if figureRow.isEmpty then pure ""
  else do
    let cells ← renderFigCells figureRow opts
    pure ("<table style=\"" ++ htmlTableStyle ++ "\"><tbody>" ++ "<tr>" ++ cells ++ "</tr>" ++
      "</tbody></table>")

/-- The loop of `_render_figures` over the grouped rows. -/
def renderRowsHtml : List (PyVal × List Obj) → ROptions → ES String
  | [], _ => pure ""
  | (_, rowFigs) :: rest, opts => do
      let part ← renderFigureRow rowFigs opts
      let restHtml ← renderRowsHtml rest opts
      pure (part ++ restHtml)

/-- `_render_figures(figures, options)`: normalization happens *before*
the `try`, and only the grouped rendering is protected by the
`try/finally` that deletes the recorded temporary files. -/
def renderFigures (figures : List PyVal) (opts : ROptions) : ES String := do
  let (normalized, tempFiles) ← normalizeFigures figures
  tryFinallyES (renderRowsHtml (layoutFigureRows normalized) opts) (deleteTempFiles tempFiles)

/-- `_render_placeholder(name, payload, options)`: strings are escaped;
dict payloads with truthy `Rows` render as a table; dict payloads with a
truthy `Path` or more than one key render as a one-figure figure set;
anything else is elided to the empty string. -/
def renderPlaceholder (_name : String) (payload : PyVal) (opts : ROptions) : ES String :=
  match payload with
  | .str s => pure (htmlEscape s)
  | .dict es =>
    if truthy ((dget es "Rows").getD .none) then liftE (renderTable es opts)
    else if truthy ((dget es "Path").getD .none) || decide (es.length > 1) then
      renderFigures [.dict es] opts
    else pure ""
  | _ => pure ""

/-- The `{{name}}` token of a placeholder. -/
def tokenOf (name : String) : String := "\x7b\x7b" ++ name ++ "\x7d\x7d"

/-- `text[2:-2]`. -/
def innerName (text : String) : String :=
  ⟨(text.data.drop 2).take (text.data.length - 4)⟩

/-- `_escape_or_placeholder(value, options)`: a value that is exactly a
`{{name}}` token for a known placeholder is rendered through
`_render_placeholder`; everything else is HTML-escaped literally. -/
def escapeOrPlaceholder (value : PyVal) (opts : ROptions) : ES String :=
  let text := pyStr value
  let placeholders := opts.placeholders.getD []
  if "\x7b\x7b".data.isPrefixOf text.data && "\x7d\x7d".data.isSuffixOf text.data then
    match dget placeholders (innerName text) with
    | some payload => renderPlaceholder (innerName text) payload opts
    | none => pure (htmlEscape text)
  else pure (htmlEscape text)

/-- The loop of `_replace_placeholders_html`: for each placeholder the
payload is rendered (unconditionally) and every `{{name}}` occurrence in
the accumulated content is replaced by it. -/
def replacePlaceholdersAux : List (String × PyVal) → String → ROptions → ES String
  | [], content, _ => pure content
  | (name, payload) :: rest, content, opts => do
      let rendered ← renderPlaceholder name payload opts
      replacePlaceholdersAux rest (pyReplaceS content (tokenOf name) rendered) opts

/-- `_replace_placeholders_html(content, options)`. -/
def replacePlaceholdersHtml (content : String) (opts : ROptions) : ES String :=
  replacePlaceholdersAux (opts.placeholders.getD []) content opts

/-- The `<h2>` opening of a section title. -/
def h2Open (opts : ROptions) : String :=
  "<h2 style=\"font-family:" ++ pyStr opts.headingFontName ++ ", sans-serif; font-size:" ++
    pyStr opts.headingFontSize ++ "pt; margin:12px 0;\">"

/-- The section-title chunk of `_render_section` (emitted when the title
is truthy). -/
def sectionTitleHtml (title : PyVal) (opts : ROptions) : String :=
  h2Open opts ++ htmlEscape (pyStr title) ++ "</h2>"

/-- The `<p>` opening of a body paragraph. -/
def pOpen (opts : ROptions) : String :=
  "<p style=\"font-family:" ++ pyStr opts.bodyFontName ++ ", sans-serif; font-size:" ++
    pyStr opts.bodyFontSize ++ "pt; margin:8px 0;\">"

/-- One paragraph chunk of `_render_section`. -/
def paragraphChunk (p : PyVal) (opts : ROptions) : ES String := do
  let text ← escapeOrPlaceholder p opts
  pure (pOpen opts ++ text ++ "</p>")

/-- The paragraph loop of `_render_section`. -/
def renderParagraphs : List PyVal → ROptions → ES String
  | [], _ => pure ""
  | p :: rest, opts => do
      let chunk ← paragraphChunk p opts
      let restHtml ← renderParagraphs rest opts
      pure (chunk ++ restHtml)

/-- One bullet item of `_render_section`. -/
def bulletChunk (b : PyVal) (opts : ROptions) : ES String := do
  let text ← escapeOrPlaceholder b opts
  pure ("<li>" ++ text ++ "</li>")

/-- The bullet loop of `_render_section`. -/
def renderBullets : List PyVal → ROptions → ES String
  | [], _ => pure ""
  | b :: rest, opts => do
      let chunk ← bulletChunk b opts
      let restHtml ← renderBullets rest opts
      pure (chunk ++ restHtml)

/-- The `<ul>` opening of a bullet list. -/
def ulOpen (opts : ROptions) : String :=
  "<ul style=\"font-family:" ++ pyStr opts.bodyFontName ++ ", sans-serif; font-size:" ++
    pyStr opts.bodyFontSize ++ "pt; margin:8px 0 16px 20px;\">"

/-- The table loop of `_render_section`. -/
def renderTables : List PyVal → ROptions → Except RErr String
  | [], _ => .ok ""
  | t :: rest, opts => do
      let td ← asObj t
      let tHtml ← renderTable td opts
      let restHtml ← renderTables rest opts
      .ok (tHtml ++ restHtml)

/-- `section.get(key, []) or []`. -/
def getOrEmptyList (sec : Obj) (k : String) : PyVal :=
  let v := (dget sec k).getD (.list [])
  if truthy v then v else .list []

/-- `_render_section(section, options)`. -/
def renderSection (sec : Obj) (opts : ROptions) : ES String := do
  let titleVal := (dget sec "Title").getD .none
  let titleHtml := if truthy titleVal then sectionTitleHtml titleVal opts else ""
  let paras ← liftE (pyIter (getOrEmptyList sec "Paragraphs"))
  let parasHtml ← renderParagraphs paras opts
  let bullets ← liftE (pyIter (getOrEmptyList sec "Bullets"))
  let bulletsHtml ← if bullets.isEmpty then pure ""
    else do
      let items ← renderBullets bullets opts
      pure (ulOpen opts ++ items ++ "</ul>")
  let tables ← liftE (pyIter (getOrEmptyList sec "Tables"))
  let tablesHtml ← liftE (renderTables tables opts)
  let figuresVal := (dget sec "Figures").getD .none
  let figsHtml ← if truthy figuresVal then do
      let figs ← liftE (pyIter figuresVal)
      renderFigures figs opts
    else pure ""
  pure ("<section style=\"margin-bottom:24px;\">" ++ titleHtml ++ parasHtml ++ bulletsHtml ++
    tablesHtml ++ figsHtml ++ "</section>")

/-- The cover-page `<p>` opening (no margin override, unlike body
paragraphs). -/
def pCoverOpen (opts : ROptions) : String :=
  "<p style=\"font-family:" ++ pyStr opts.bodyFontName ++ ", sans-serif; font-size:" ++
    pyStr opts.bodyFontSize ++ "pt;\">"

/-- `_render_cover_page(report_title, options)`. -/
def renderCoverPage (reportTitle : String) (opts : ROptions) : String :=
  let h1 := "<h1 style=\"font-family:" ++ pyStr opts.headingFontName ++
    ", sans-serif; font-size:" ++ pyStr opts.headingFontSize ++ "pt; margin:24px 0;\">" ++
    htmlEscape reportTitle ++ "</h1>"
  let authorVal := opts.author.getD .none
  let authorP := if truthy authorVal then
      pCoverOpen opts ++ "作者：" ++ htmlEscape (pyStr authorVal) ++ "</p>" else ""
  let companyVal := opts.company.getD .none
  let companyP := if truthy companyVal then
      pCoverOpen opts ++ "单位：" ++ htmlEscape (pyStr companyVal) ++ "</p>" else ""
  "<section style=\"text-align:center; page-break-after:always;\">" ++ h1 ++ authorP ++
    companyP ++ "</section>"

/-- `_build_root_style(options)`. -/
def buildRootStyle (opts : ROptions) : String :=
  "font-family:" ++ pyStr opts.bodyFontName ++ ", sans-serif; font-size:" ++
    pyStr opts.bodyFontSize ++ "pt; line-height:" ++ pyStr opts.lineSpacing ++
    "; margin:16px; -ms-text-size-adjust:100%"

/-- The fixed head part of `generate_html_report`'s output. -/
def htmlHead (reportTitle : String) : String :=
  "<!DOCTYPE html>" ++ "<html lang=\"zh-CN\">" ++ "<head>" ++
    "<meta http-equiv=\"X-UA-Compatible\" content=\"IE=edge\">" ++ "<meta charset=\"UTF-8\">" ++
    "<title>" ++ htmlEscape reportTitle ++ "</title>" ++ "</head>"

/-- The section loop of `generate_html_report`. -/
def renderSections : List PyVal → ROptions → ES String
  | [], _ => pure ""
  | s :: rest, opts => do
      let o ← liftE (asObj s)
      let h ← renderSection o opts
      let r ← renderSections rest opts
      pure (h ++ r)

/-- `generate_html_report(output_path, report_title, sections, options)`,
taking the already-resolved options (`options = _merge_options(options)`
is the first line of the Python function; options resolution is embedded
separately as `mergeOptions`).  Returns the final HTML written to
`output_path`. -/
def generateHtmlReport (outputPath : String) (reportTitle : String) (sections : List PyVal)
    (opts : ROptions) : ES String := do
  let base := htmlHead reportTitle ++ "<body style=\"" ++ buildRootStyle opts ++ "\">" ++
    renderCoverPage reportTitle opts
  let secsHtml ← renderSections sections opts
  let finalHtml ← replacePlaceholdersHtml (base ++ secsHtml ++ "</body></html>") opts
  writeFile outputPath (finalHtml.data.map Char.toNat)
  pure finalHtml

/-! ## Word backend layout core (`_add_table`, `_add_figure_row`,
`_add_figures`)

The COM document is abstracted to the grid descriptions the code asks
Word to create: `Tables.Add(range, rows, cols)` plus the cell texts
written into it, and for figure rows the `Borders.Enable = False` flag
with the per-cell picture path and caption. -/

/-- The grid `_add_table` builds: dimensions passed to `Tables.Add`,
the applied style and font, and the written cells
`((row, col), text, bold)`. -/
structure WordTable where
  nrows : Nat
  ncols : Nat
  style : PyVal
  fontName : PyVal
  fontSize : PyVal
  cells : List ((Nat × Nat) × String × Bool)

/-- Header cells (`enumerate(header, start=1)`, row 1, bold). -/
def headerCellsW (header : List PyVal) : List ((Nat × Nat) × String × Bool) :=
  header.enum.map (fun e => ((1, e.1 + 1), pyStr e.2, true))

/-- Body cells, one row at a time from `startRow`. -/
def bodyRowsW : List PyVal → Nat → Except RErr (List ((Nat × Nat) × String × Bool))
  | [], _ => .ok []
  | row :: rest, startRow => do
      let rv ← pyIter row
      let cells := rv.enum.map (fun e => ((startRow, e.1 + 1), pyStr e.2, false))
      let restCells ← bodyRowsW rest (startRow + 1)
      .ok (cells ++ restCells)

/-- `_add_table(selection, table_def, options)`: skipped entirely
(`None`) when `Rows` is absent or falsy; otherwise a grid with
`len(rows_data) (+1 with header)` rows and `len(rows_data[0])` columns. -/
def addTable (tableDef : Obj) (opts : ROptions) : Except RErr (Option WordTable) :=
  let rowsVal := (dget tableDef "Rows").getD .none
  if !truthy rowsVal then .ok none
  else do
    let rowsData ← pyIter rowsVal
    let nrows0 := rowsData.length
    let ncols ← match rowsData with
      | r :: _ => pyLen r
      | [] => pure 0
    let headerVal := (dget tableDef "Header").getD .none
    let headerCells ← if truthy headerVal then do
        let header ← pyIter headerVal
        pure (headerCellsW header)
      else pure []
    let nrows := if truthy headerVal then nrows0 + 1 else nrows0
    let startRow := if truthy headerVal then 2 else 1
    let bodyCells ← bodyRowsW rowsData startRow
    .ok (some { nrows := nrows, ncols := ncols, style := opts.tableStyle,
                fontName := opts.bodyFontName, fontSize := opts.bodyFontSize,
                cells := headerCells ++ bodyCells })

/-- A figure row as `_add_figure_row` builds it: the 1×N table with
`Borders.Enable = False` and, per cell, the picture path handed to
`AddPicture` and the caption text handed to `InsertCaption`. -/
structure WordFigRow where
  bordersEnabled : Bool
  cells : List (String × String)

/-- The per-cell loop of `_add_figure_row`: `fig["Path"]` (a `KeyError`
if absent) and `f" {fig['Caption']}" if fig.get("Caption") else ""`. -/
def figRowCellsW : List Obj → Except RErr (List (String × String))
  | [] => .ok []
  | fig :: rest => do
      let pathVal ← match dget fig "Path" with
        | some v => Except.ok v
        | none => Except.error (.keyError "Path")
      let p ← asStr pathVal
      let captionText := if truthy ((dget fig "Caption").getD .none) then
          " " ++ pyStr ((dget fig "Caption").getD (.str "")) else ""
      let restCells ← figRowCellsW rest
      .ok ((p, captionText) :: restCells)

/-- `_add_figure_row(selection, figure_row)`: returns without creating a
table for an empty row; otherwise a borderless 1×N grid. -/
def addFigureRow (figureRow : List Obj) : Except RErr (Option WordFigRow) :=
  if figureRow.isEmpty then .ok none
  else do
    let cells ← figRowCellsW figureRow
    .ok (some { bordersEnabled := false, cells := cells })

/-- The per-row loop of `_add_figures`. -/
def addFigRowsW : List (PyVal × List Obj) → Except RErr (List WordFigRow)
  | [] => .ok []
  | (_, rowFigs) :: rest => do
      let r ← addFigureRow rowFigs
      let restRows ← addFigRowsW rest
      .ok (r.toList ++ restRows)

/-- `_add_figures(selection, figures)` (Word backend): normalize, group
into rows, emit one borderless grid per row; temp files are deleted in
the `finally`, which — as in `_render_figures` — does not cover the
normalization step itself. -/
def addFigures (figures : List PyVal) : ES (List WordFigRow) := do
  let (normalized, tempFiles) ← normalizeFigures figures
  tryFinallyES (liftE (addFigRowsW (layoutFigureRows normalized))) (deleteTempFiles tempFiles)

/-! ## Options resolver (`_merge_options`) over an explicit dict heap

`_merge_options` starts from a *shallow* copy of the caller's dict
(`options.copy()`), so nested dictionaries — in particular a
caller-supplied `Margins` — are shared, and the subsequent
`margins.setdefault(...)` calls mutate the caller's nested dict in
place.  To capture this, option dictionaries hold either scalar values
or *references* into a heap of nested dictionaries; the resolver
returns the resolved entry list together with the updated heap.  The
top-level input dict is passed by value because the code only shallow-
copies it and never mutates it through the caller's reference. -/

/-- A value stored in an options dictionary: a scalar, or a reference
into the heap of nested dictionaries. -/
inductive MVal where
  | prim (v : PyVal)
  | ref (a : Nat)

/-- An options dictionary: insertion-ordered key/value list. -/
abbrev MObj := List (String × MVal)

/-- The heap of nested dictionaries (addresses are list indices). -/
abbrev MStore := List MObj

/-- Key lookup. -/
def mget (d : MObj) (k : String) : Option MVal :=
  (d.find? (fun e => e.1 == k)).map (fun e => e.2)

/-- `d.setdefault(k, v)` for a scalar default: no-op when the key is
present, append otherwise. -/
def msetdefault (d : MObj) (k : String) (v : MVal) : MObj :=
  if (mget d k).isSome then d else d ++ [(k, v)]

/-- `heap-cell.setdefault(k, v)`: mutate the nested dict at address `a`
in place; a present key leaves the store untouched. -/
def storeSetdefault (st : MStore) (a : Nat) (k : String) (v : MVal) : MStore :=
  match st[a]? with
  | some cell => if (mget cell k).isSome then st else st.set a (cell ++ [(k, v)])
  | none => st

/-- `d.setdefault(k, {...})` for a dict-literal default: when the key is
absent, a fresh nested dict is allocated and referenced. -/
def setdefaultDict (opts : MObj) (st : MStore) (k : String) (cell : MObj) : MObj × MStore :=
  if (mget opts k).isSome then (opts, st)
  else (opts ++ [(k, .ref st.length)], st ++ [cell])

/-- The `{"Name": "Arial", "Size": 16}` heading-font default. -/
def defaultHeadingFont : MObj := [("Name", .prim (.str "Arial")), ("Size", .prim (.int 16))]

/-- The `{"Name": "Arial", "Size": 11}` body-font default. -/
def defaultBodyFont : MObj := [("Name", .prim (.str "Arial")), ("Size", .prim (.int 11))]

/-- `options.copy() if options else {}`: `None` and the empty dict both
yield a fresh empty dict; a non-empty dict is shallow-copied (same
entries, nested references shared). -/
def optsOf (input : Option MObj) : MObj :=
  match input with
  | some e => if e.isEmpty then [] else e
  | none => []

/-- `opts.setdefault("AddPageNums", True)` applied to
`options.copy() if options else {}`. -/
def mtA (input : Option MObj) : MObj :=
  msetdefault (optsOf input) "AddPageNums" (.prim (.bool true))

/-- ... then `opts.setdefault("HeadingFont", {"Name": "Arial", "Size": 16})`. -/
def mtH (input : Option MObj) (st : MStore) : MObj × MStore :=
  setdefaultDict (mtA input) st "HeadingFont" defaultHeadingFont

/-- ... then `opts.setdefault("BodyFont", {"Name": "Arial", "Size": 11})`. -/
def mtB (input : Option MObj) (st : MStore) : MObj × MStore :=
  setdefaultDict (mtH input st).1 (mtH input st).2 "BodyFont" defaultBodyFont

/-- ... then `opts.setdefault("LineSpacing", 1.15)`. -/
def mtL (input : Option MObj) (st : MStore) : MObj :=
  msetdefault (mtB input st).1 "LineSpacing" (.prim (.rat (mkRat 23 20)))

/-- ... then `opts.setdefault("SpaceBefore", 6)`. -/
def mtSB (input : Option MObj) (st : MStore) : MObj :=
  msetdefault (mtL input st) "SpaceBefore" (.prim (.int 6))

/-- ... then `opts.setdefault("SpaceAfter", 6)`. -/
def mtSA (input : Option MObj) (st : MStore) : MObj :=
  msetdefault (mtSB input st) "SpaceAfter" (.prim (.int 6))

/-- ... then `opts.setdefault("Margins", {})`. -/
def mtM (input : Option MObj) (st : MStore) : MObj × MStore :=
  setdefaultDict (mtSA input st) (mtB input st).2 "Margins" []

/-- The resolved top-level dictionary after the straight-line
`setdefault` chain of `_merge_options` (ending with
`opts.setdefault("TableStyle", "Table Grid")`). -/
def mergeTopOpts (input : Option MObj) (st : MStore) : MObj :=
  msetdefault (mtM input st).1 "TableStyle" (.prim (.str "Table Grid"))

/-- The heap after the straight-line `setdefault` chain of
`_merge_options` (the scalar `setdefault`s do not touch it). -/
def mergeTopStore (input : Option MObj) (st : MStore) : MStore :=
  (mtM input st).2

/-- The four `margins.setdefault(...)` calls of `_merge_options`,
mutating the nested dict at address `a` in place. -/
def marginDefaults (st : MStore) (a : Nat) : MStore :=
  storeSetdefault (storeSetdefault (storeSetdefault (storeSetdefault
    st a "Top" (.prim (.int 72))) a "Bottom" (.prim (.int 72)))
    a "Left" (.prim (.int 72))) a "Right" (.prim (.int 72))

/-- `_merge_options(options)`: fill the eight defaulted fields only when
absent (in source order), then complete the `Margins` nested dict
field-by-field through the shared reference.  `.error ()` models the
`AttributeError` Python raises when a caller supplies a non-dict
`Margins` (`margins.setdefault` on a non-dict), and the impossible
dangling reference. -/
def mergeOptions (input : Option MObj) (st : MStore) : Except Unit (MObj × MStore) :=
  match mget (mergeTopOpts input st) "Margins" with
  | some (.ref a) =>
    if a < (mergeTopStore input st).length then
      .ok (mergeTopOpts input st, marginDefaults (mergeTopStore input st) a)
    else .error ()
  | some (.prim _) => .error ()
  | none => .error ()

/-! ### Concrete resolver inputs and outputs used by witnesses -/

/-- The eight option keys `_merge_options` defaults. -/
def defaultedKeys : List String :=
  ["AddPageNums", "HeadingFont", "BodyFont", "LineSpacing", "SpaceBefore", "SpaceAfter",
   "Margins", "TableStyle"]

/-- The resolved dictionary `_merge_options(None)` produces (entries in
`setdefault` order, nested dicts by reference). -/
def mergeNoneOpts : MObj :=
  [("AddPageNums", .prim (.bool true)), ("HeadingFont", .ref 0), ("BodyFont", .ref 1),
   ("LineSpacing", .prim (.rat (mkRat 23 20))), ("SpaceBefore", .prim (.int 6)),
   ("SpaceAfter", .prim (.int 6)), ("Margins", .ref 2), ("TableStyle", .prim (.str "Table Grid"))]

/-- The heap `_merge_options(None)` produces on an empty heap. -/
def mergeNoneStore : MStore :=
  [defaultHeadingFont, defaultBodyFont,
   [("Top", .prim (.int 72)), ("Bottom", .prim (.int 72)), ("Left", .prim (.int 72)),
    ("Right", .prim (.int 72))]]

/-- The caller's options for the frame witness: a `HeadingFont` dict at
heap cell 0 and a partial `Margins` dict at heap cell 1. -/
def mergeFrameIn : MObj := [("HeadingFont", MVal.ref 0), ("Margins", MVal.ref 1)]

/-- The caller's heap for the frame witness. -/
def mergeFrameStore : MStore := [[("Name", .prim (.str "X"))], []]

/-- The resolved entries for the frame witness. -/
def mergeFrameOutOpts : MObj :=
  [("HeadingFont", MVal.ref 0), ("Margins", MVal.ref 1),
   ("AddPageNums", .prim (.bool true)), ("BodyFont", .ref 2),
   ("LineSpacing", .prim (.rat (mkRat 23 20))), ("SpaceBefore", .prim (.int 6)),
   ("SpaceAfter", .prim (.int 6)), ("TableStyle", .prim (.str "Table Grid"))]

/-- The heap after resolving the frame witness's options. -/
def mergeFrameOutStore : MStore :=
  [[("Name", .prim (.str "X"))],
   [("Top", .prim (.int 72)), ("Bottom", .prim (.int 72)), ("Left", .prim (.int 72)),
    ("Right", .prim (.int 72))],
   defaultBodyFont]

/-! ### Concrete report inputs used by witnesses and counterexamples -/

/-- Example figure (input entry 1): row index 2. -/
def exampleFig1 : Obj := [("Path", .str "/img/a.png"), ("RowIndex", .int 2)]

/-- Example figure (input entry 2): row index 1. -/
def exampleFig2 : Obj := [("Path", .str "/img/b.png"), ("RowIndex", .int 1)]

/-- Example figure (input entry 3): row index 2. -/
def exampleFig3 : Obj := [("Path", .str "/img/c.png"), ("RowIndex", .int 2)]

/-- Example figure (input entry 4): row index 1. -/
def exampleFig4 : Obj := [("Path", .str "/img/d.png"), ("RowIndex", .int 1)]

/-- The spec's example figure list with row indices `[2, 1, 2, 1]`. -/
def exampleFigs : List Obj := [exampleFig1, exampleFig2, exampleFig3, exampleFig4]

/-- The spec's example table: `{Header:["a","b"], Rows:[["1","2"]]}`. -/
def exampleTable : Obj :=
  [("Header", .list [.str "a", .str "b"]), ("Rows", .list [.list [.str "1", .str "2"]])]

/-- A filesystem holding one image file, used by the `_figure_src`
theorems. -/
def fsOneImage : FS := { files := [("/img/a.png", [1, 2, 3])], tempCounter := 0 }

/-- The empty filesystem. -/
def emptyFS : FS := { files := [], tempCounter := 0 }

/-- A figure list whose first entry is a plottable handle (so a
temporary PNG is materialized for it) and whose second entry has neither
a path nor a handle (so normalization raises). -/
def leakFigs : List PyVal := [.dict [("FigureHandle", .figure 7)], .dict []]

/-- A section carrying `leakFigs`. -/
def leakSection : PyVal := .dict [("Title", .str "S"), ("Figures", .list leakFigs)]

/-- A placeholder payload of unsupported shape: a dict with two keys,
none of which is `Rows` or a usable figure source. -/
def badPayload : PyVal := .dict [("Foo", .int 1), ("Bar", .int 2)]

/-! ### Dictionary-operation lemmas -/

/-! ### Sorting and grouping lemmas for the figure row layout -/

theorem mem_insertPy {x a : PyVal} {l : List PyVal} :
    x ∈ insertPy a l ↔ x = a ∨ x ∈ l := by
  induction l with
  | nil => simp [insertPy]
  | cons b t ih =>
    unfold insertPy
    by_cases h : pyLe a b = true
    · simp [h]
    · simp [h, ih]
      tauto

theorem insertPy_perm (a : PyVal) (l : List PyVal) : List.Perm (insertPy a l) (a :: l) := by
  induction l with
  | nil => exact List.Perm.refl _
  | cons b t ih =>
    unfold insertPy
    by_cases h : pyLe a b = true
    · rw [if_pos h]
    · rw [if_neg h]
      exact (ih.cons b).trans (List.Perm.swap a b t)

theorem sortPy_perm (l : List PyVal) : List.Perm (sortPy l) l := by
  induction l with
  | nil => exact List.Perm.refl _
  | cons a t ih =>
    show List.Perm (insertPy a (sortPy t)) (a :: t)
    exact (insertPy_perm a (sortPy t)).trans (ih.cons a)

theorem head_insertPy (a : PyVal) (l : List PyVal) :
    (insertPy a l).head? = some a ∨ (insertPy a l).head? = l.head? := by
  cases l with
  | nil => left; rfl
  | cons b t =>
    unfold insertPy
    by_cases h : pyLe a b = true
    · left; rw [if_pos h]; rfl
    · right; rw [if_neg h]; rfl

theorem chain_insertPy {a : PyVal} {l : List PyVal}
    (hints : ∀ v ∈ a :: l, ∃ n : Int, v = .int n)
    (hl : List.Chain' (fun x y => pyLe x y = true) l) :
    List.Chain' (fun x y => pyLe x y = true) (insertPy a l) := by
  induction l with
  | nil => simp [insertPy]
  | cons b t ih =>
    obtain ⟨na, hna⟩ := hints a (by simp)
    obtain ⟨nb, hnb⟩ := hints b (by simp)
    unfold insertPy
    by_cases h : pyLe a b = true
    · rw [if_pos h]
      exact List.chain'_cons.mpr ⟨h, hl⟩
    · rw [if_neg h]
      have hba : pyLe b a = true := by
        subst hna
        subst hnb
        simp only [pyLe, decide_eq_true_eq] at h ⊢
        omega
      have htail : List.Chain' (fun x y => pyLe x y = true) (insertPy a t) := by
        apply ih
        · intro v hv
          rcases List.mem_cons.mp hv with rfl | hvt
          · exact ⟨na, hna⟩
          · exact hints v (by simp [hvt])
        · exact hl.tail
      apply List.chain'_cons'.mpr
      refine ⟨?_, htail⟩
      intro z hz
      rcases head_insertPy a t with hh | hh
      · rw [hh] at hz
        injection hz with hz2
        subst hz2
        exact hba
      · rw [hh] at hz
        cases t with
        | nil => cases hz
        | cons c t2 =>
          injection hz with hz2
          subst hz2
          exact (List.chain'_cons.mp hl).1

theorem sortPy_chain {l : List PyVal} (hints : ∀ v ∈ l, ∃ n : Int, v = .int n) :
    List.Chain' (fun x y => pyLe x y = true) (sortPy l) := by
  induction l with
  | nil => simp [sortPy]
  | cons a t ih =>
    show List.Chain' _ (insertPy a (sortPy t))
    apply chain_insertPy
    · intro v hv
      rcases List.mem_cons.mp hv with rfl | hvt
      · exact hints v (by simp)
      · exact hints v (by simp [(sortPy_perm t).mem_iff.mp hvt])
    · exact ih (fun v hv => hints v (by simp [hv]))

theorem mem_dedupFirst_sub {x : PyVal} {l : List PyVal} (h : x ∈ dedupFirst l) : x ∈ l := by
  induction l with
  | nil => simp [dedupFirst] at h
  | cons a t ih =>
    unfold dedupFirst at h
    rcases List.mem_cons.mp h with rfl | hx
    · simp
    · exact List.mem_cons.mpr (Or.inr (ih (List.mem_of_mem_filter hx)))

theorem mem_dedupFirst {l : List PyVal} (hints : ∀ v ∈ l, ∃ n : Int, v = .int n) {x : PyVal} :
    x ∈ dedupFirst l ↔ x ∈ l := by
  induction l with
  | nil => simp [dedupFirst]
  | cons a t ih =>
    constructor
    · exact mem_dedupFirst_sub
    · intro hx
      rcases List.mem_cons.mp hx with rfl | hxt
      · unfold dedupFirst
        simp
      · unfold dedupFirst
        by_cases hax : pyEq a x = true
        · obtain ⟨na, hna⟩ := hints a (by simp)
          obtain ⟨nx, hnx⟩ := hints x (by simp [hxt])
          subst hna
          subst hnx
          simp only [pyEq, decide_eq_true_eq] at hax
          subst hax
          simp
        · have hax2 : pyEq a x = false := by
            cases hv : pyEq a x
            · rfl
            · exact absurd hv hax
          refine List.mem_cons.mpr (Or.inr ?_)
          refine List.mem_filter.mpr ⟨(ih (fun v hv => hints v (by simp [hv]))).mpr hxt, ?_⟩
          simp [hax2]

theorem dedupFirst_pairwise (l : List PyVal) :
    List.Pairwise (fun x y => pyEq x y = false) (dedupFirst l) := by
  induction l with
  | nil => simp [dedupFirst]
  | cons a t ih =>
    unfold dedupFirst
    refine List.pairwise_cons.mpr ⟨?_, ih.filter _⟩
    intro y hy
    have h2 := (List.mem_filter.mp hy).2
    simpa using h2

theorem pyEq_symm (a b : PyVal) : pyEq a b = pyEq b a := by
  cases a <;> cases b <;> simp [pyEq, eq_comm]

theorem int_repr {L : List PyVal} (h : ∀ v ∈ L, ∃ n : Int, v = .int n) :
    ∃ ns : List Int, L = ns.map .int := by
  induction L with
  | nil => exact ⟨[], rfl⟩
  | cons a t ih =>
    obtain ⟨na, hna⟩ := h a (by simp)
    obtain ⟨ns, hns⟩ := ih (fun v hv => h v (by simp [hv]))
    exact ⟨na :: ns, by rw [hna, hns]; rfl⟩

theorem chain_lt_of_le_pairwise {ns : List Int}
    (hc : List.Chain' (· ≤ ·) ns) (hp : List.Pairwise (· ≠ ·) ns) :
    List.Chain' (· < ·) ns := by
  induction ns with
  | nil => simp
  | cons a t ih =>
    cases t with
    | nil => simp
    | cons b t2 =>
      rw [List.chain'_cons] at hc ⊢
      refine ⟨lt_of_le_of_ne hc.1 ((List.pairwise_cons.mp hp).1 b (by simp)), ?_⟩
      exact ih hc.2 (List.pairwise_cons.mp hp).2

/-- `sorted(set(l))` on integer values: a strictly ascending list with
exactly the members of `l`. -/
theorem sortedDedup_int {R : List PyVal} (hints : ∀ v ∈ R, ∃ n : Int, v = .int n) :
    (∃ ns : List Int, sortedDedup R = ns.map .int ∧ List.Chain' (· < ·) ns) ∧
    (∀ v, v ∈ sortedDedup R ↔ v ∈ R) := by
  have hD : ∀ v ∈ dedupFirst R, ∃ n : Int, v = .int n :=
    fun v hv => hints v (mem_dedupFirst_sub hv)
  have hchain := sortPy_chain hD
  have hpair0 := dedupFirst_pairwise R
  have hperm : List.Perm (sortPy (dedupFirst R)) (dedupFirst R) := sortPy_perm _
  have hsymm : Symmetric (fun x y : PyVal => pyEq x y = false) := by
    intro x y h
    rw [pyEq_symm]
    exact h
  have hpair : List.Pairwise (fun x y => pyEq x y = false) (sortPy (dedupFirst R)) :=
    (hperm.pairwise_iff (fun h => hsymm h)).mpr hpair0
  have hintsS : ∀ v ∈ sortPy (dedupFirst R), ∃ n : Int, v = .int n :=
    fun v hv => hD v (hperm.mem_iff.mp hv)
  obtain ⟨ns, hns⟩ := int_repr hintsS
  constructor
  · refine ⟨ns, hns, ?_⟩
    rw [hns] at hchain hpair
    rw [List.chain'_map] at hchain
    rw [List.pairwise_map] at hpair
    apply chain_lt_of_le_pairwise
    · refine hchain.imp ?_
      intro a b hab
      simpa [pyLe] using hab
    · refine hpair.imp ?_
      intro a b hab
      simpa [pyEq] using hab
  · intro v
    constructor
    · intro hv
      exact mem_dedupFirst_sub (hperm.mem_iff.mp hv)
    · intro hv
      exact hperm.mem_iff.mpr ((mem_dedupFirst hints).mpr hv)

theorem zip_filter_map (g : Obj → PyVal) (p : PyVal → Bool) (l : List Obj) :
    (((l.zip (l.map g)).filter (fun q => p q.2)).map (fun q => q.1)) =
      l.filter (fun f => p (g f)) := by
  induction l with
  | nil => rfl
  | cons a t ih =>
    show ((((a, g a) :: t.zip (t.map g)).filter (fun q => p q.2)).map (fun q => q.1)) = _
    by_cases h : p (g a) = true
    · rw [List.filter_cons_of_pos (by simpa using h)]
      rw [List.map_cons, ih, List.filter_cons_of_pos (by simpa using h)]
    · rw [List.filter_cons_of_neg (by simpa using h)]
      rw [ih, List.filter_cons_of_neg (by simpa using h)]

theorem layoutFigureRows_fst (figs : List Obj) :
    (layoutFigureRows figs).map Prod.fst = sortedDedup (figs.map effRowIdx) := by
  unfold layoutFigureRows
  rw [List.map_map]
  exact List.map_id _

theorem mget_isSome_ne_nil {d : MObj} {k : String} (h : (mget d k).isSome) :
    d.isEmpty = false := by
  cases d with
  | nil => simp [mget] at h
  | cons a t => rfl

theorem mget_append_of_isSome {d : MObj} (t : MObj) {k : String}
    (h : (mget d k).isSome) : mget (d ++ t) k = mget d k := by
  unfold mget at *
  rw [List.find?_append]
  cases hf : d.find? (fun e => e.1 == k) with
  | none => rw [hf] at h; simp at h
  | some e => simp [hf, Option.or]

theorem mget_append_of_none {d : MObj} (t : MObj) {k : String}
    (h : mget d k = none) : mget (d ++ t) k = mget t k := by
  unfold mget at *
  rw [List.find?_append]
  cases hf : d.find? (fun e => e.1 == k) with
  | none => simp [Option.or]
  | some e => rw [hf] at h; simp at h

theorem mget_single_self (k : String) (v : MVal) : mget [(k, v)] k = some v := by
  simp [mget, List.find?]

theorem mget_single_ne {k k' : String} (v : MVal) (h : k' ≠ k) :
    mget [(k, v)] k' = none := by
  have hb : (k == k') = false := by
    simp only [beq_eq_false_iff_ne]
    exact fun he => h he.symm
  simp [mget, List.find?, hb]

theorem msetdefault_of_isSome {d : MObj} {k : String} (v : MVal)
    (h : (mget d k).isSome) : msetdefault d k v = d := by
  simp [msetdefault, h]

theorem mget_msetdefault_isSome (d : MObj) (k : String) (v : MVal) :
    (mget (msetdefault d k v) k).isSome := by
  unfold msetdefault
  split
  · assumption
  · rename_i h
    rw [mget_append_of_none _ (by cases hm : mget d k <;> simp [hm] at h ⊢),
      mget_single_self]
    rfl

theorem mget_msetdefault_mono {d : MObj} {k' : String} (k : String) (v : MVal)
    (h : (mget d k').isSome) : mget (msetdefault d k v) k' = mget d k' := by
  unfold msetdefault
  split
  · rfl
  · exact mget_append_of_isSome _ h

theorem mget_msetdefault_ne {d : MObj} {k k' : String} (v : MVal) (h : k' ≠ k) :
    mget (msetdefault d k v) k' = mget d k' := by
  unfold msetdefault
  split
  · rfl
  · cases hs : mget d k' with
    | some w => rw [mget_append_of_isSome _ (by simp [hs]), hs]
    | none => rw [mget_append_of_none _ hs, mget_single_ne _ h]

theorem setdefaultDict_of_isSome {opts : MObj} {k : String} (st : MStore) (cell : MObj)
    (h : (mget opts k).isSome) : setdefaultDict opts st k cell = (opts, st) := by
  simp [setdefaultDict, h]

theorem mget_setdefaultDict_isSome (opts : MObj) (st : MStore) (k : String) (cell : MObj) :
    (mget (setdefaultDict opts st k cell).1 k).isSome := by
  unfold setdefaultDict
  split
  · assumption
  · rename_i h
    simp only
    rw [mget_append_of_none _ (by cases hm : mget opts k <;> simp [hm] at h ⊢),
      mget_single_self]
    rfl

theorem mget_setdefaultDict_mono {opts : MObj} {k' : String} (st : MStore) (k : String)
    (cell : MObj) (h : (mget opts k').isSome) :
    mget (setdefaultDict opts st k cell).1 k' = mget opts k' := by
  unfold setdefaultDict
  split
  · rfl
  · exact mget_append_of_isSome _ h

theorem mget_setdefaultDict_ne {opts : MObj} {k k' : String} (st : MStore) (cell : MObj)
    (h : k' ≠ k) : mget (setdefaultDict opts st k cell).1 k' = mget opts k' := by
  unfold setdefaultDict
  split
  · rfl
  · cases hs : mget opts k' with
    | some w => rw [mget_append_of_isSome _ (by simp [hs]), hs]
    | none => rw [mget_append_of_none _ hs, mget_single_ne _ h]

theorem setdefaultDict_store_le (opts : MObj) (st : MStore) (k : String) (cell : MObj) :
    st.length ≤ (setdefaultDict opts st k cell).2.length := by
  unfold setdefaultDict
  split <;> simp

theorem setdefaultDict_store_get {b : Nat} (opts : MObj) (st : MStore) (k : String)
    (cell : MObj) (h : b < st.length) :
    (setdefaultDict opts st k cell).2[b]? = st[b]? := by
  unfold setdefaultDict
  split
  · rfl
  · exact List.getElem?_append_left h

theorem storeSetdefault_length (st : MStore) (a : Nat) (k : String) (v : MVal) :
    (storeSetdefault st a k v).length = st.length := by
  unfold storeSetdefault
  split
  · split
    · rfl
    · simp
  · rfl

theorem storeSetdefault_get_ne {b a : Nat} (st : MStore) (k : String) (v : MVal)
    (h : b ≠ a) : (storeSetdefault st a k v)[b]? = st[b]? := by
  unfold storeSetdefault
  split
  · split
    · rfl
    · exact List.getElem?_set_ne h.symm
  · rfl

theorem storeSetdefault_noop {st : MStore} {a : Nat} {k : String} {cell : MObj}
    (v : MVal) (hc : st[a]? = some cell) (hk : (mget cell k).isSome) :
    storeSetdefault st a k v = st := by
  unfold storeSetdefault
  rw [hc]
  simp [hk]

theorem storeSetdefault_self {st : MStore} {a : Nat} {cell : MObj} (k : String) (v : MVal)
    (hc : st[a]? = some cell) :
    ∃ cell', (storeSetdefault st a k v)[a]? = some cell' ∧ (mget cell' k).isSome ∧
      ∀ k', (mget cell k').isSome → mget cell' k' = mget cell k' := by
  have ha : a < st.length := by
    by_contra hlt
    rw [List.getElem?_eq_none (by omega)] at hc
    exact Option.noConfusion hc
  unfold storeSetdefault
  rw [hc]
  cases hk : (mget cell k).isSome with
  | true =>
    simp only [hk, if_true]
    exact ⟨cell, hc, hk, fun _ _ => rfl⟩
  | false =>
    have hnone : mget cell k = none := by
      cases hm : mget cell k
      · rfl
      · rw [hm] at hk; simp at hk
    simp only [hk, Bool.false_eq_true, if_false]
    refine ⟨cell ++ [(k, v)], ?_, ?_, ?_⟩
    · exact List.getElem?_set_self ha
    · rw [mget_append_of_none _ hnone, mget_single_self]
      rfl
    · intro k' hk'
      exact mget_append_of_isSome _ hk'

/-! ### Facts about the `_merge_options` pipeline -/


theorem mtA_eq (inp : Option MObj) :
    mtA inp = msetdefault (optsOf inp) "AddPageNums" (.prim (.bool true)) := rfl

theorem mtH_eq (inp : Option MObj) (st : MStore) :
    mtH inp st = setdefaultDict (mtA inp) st "HeadingFont" defaultHeadingFont := rfl

theorem mtB_eq (inp : Option MObj) (st : MStore) :
    mtB inp st = setdefaultDict (mtH inp st).1 (mtH inp st).2 "BodyFont" defaultBodyFont := rfl

theorem mtL_eq (inp : Option MObj) (st : MStore) :
    mtL inp st = msetdefault (mtB inp st).1 "LineSpacing" (.prim (.rat (mkRat 23 20))) := rfl

theorem mtSB_eq (inp : Option MObj) (st : MStore) :
    mtSB inp st = msetdefault (mtL inp st) "SpaceBefore" (.prim (.int 6)) := rfl

theorem mtSA_eq (inp : Option MObj) (st : MStore) :
    mtSA inp st = msetdefault (mtSB inp st) "SpaceAfter" (.prim (.int 6)) := rfl

theorem mtM_eq (inp : Option MObj) (st : MStore) :
    mtM inp st = setdefaultDict (mtSA inp st) (mtB inp st).2 "Margins" [] := rfl

theorem mergeTopOpts_eq (inp : Option MObj) (st : MStore) :
    mergeTopOpts inp st = msetdefault (mtM inp st).1 "TableStyle" (.prim (.str "Table Grid")) :=
  rfl

theorem mergeTopStore_eq (inp : Option MObj) (st : MStore) :
    mergeTopStore inp st = (mtM inp st).2 := rfl

theorem mergeTop_presence (inp : Option MObj) (st : MStore) :
    ∀ k ∈ defaultedKeys, (mget (mergeTopOpts inp st) k).isSome := by
  have hA : (mget (mtA inp) "AddPageNums").isSome := by
    rw [mtA_eq]; exact mget_msetdefault_isSome _ _ _
  have hH : (mget (mtH inp st).1 "HeadingFont").isSome := by
    rw [mtH_eq]; exact mget_setdefaultDict_isSome _ _ _ _
  have hB : (mget (mtB inp st).1 "BodyFont").isSome := by
    rw [mtB_eq]; exact mget_setdefaultDict_isSome _ _ _ _
  have hL : (mget (mtL inp st) "LineSpacing").isSome := by
    rw [mtL_eq]; exact mget_msetdefault_isSome _ _ _
  have hSB : (mget (mtSB inp st) "SpaceBefore").isSome := by
    rw [mtSB_eq]; exact mget_msetdefault_isSome _ _ _
  have hSA : (mget (mtSA inp st) "SpaceAfter").isSome := by
    rw [mtSA_eq]; exact mget_msetdefault_isSome _ _ _
  have hM : (mget (mtM inp st).1 "Margins").isSome := by
    rw [mtM_eq]; exact mget_setdefaultDict_isSome _ _ _ _
  have upH : ∀ k, (mget (mtA inp) k).isSome → (mget (mtH inp st).1 k).isSome := by
    intro k h
    rw [mtH_eq, mget_setdefaultDict_mono _ _ _ h]
    exact h
  have upB : ∀ k, (mget (mtH inp st).1 k).isSome → (mget (mtB inp st).1 k).isSome := by
    intro k h
    rw [mtB_eq, mget_setdefaultDict_mono _ _ _ h]
    exact h
  have upL : ∀ k, (mget (mtB inp st).1 k).isSome → (mget (mtL inp st) k).isSome := by
    intro k h
    rw [mtL_eq, mget_msetdefault_mono _ _ h]
    exact h
  have upSB : ∀ k, (mget (mtL inp st) k).isSome → (mget (mtSB inp st) k).isSome := by
    intro k h
    rw [mtSB_eq, mget_msetdefault_mono _ _ h]
    exact h
  have upSA : ∀ k, (mget (mtSB inp st) k).isSome → (mget (mtSA inp st) k).isSome := by
    intro k h
    rw [mtSA_eq, mget_msetdefault_mono _ _ h]
    exact h
  have upM : ∀ k, (mget (mtSA inp st) k).isSome → (mget (mtM inp st).1 k).isSome := by
    intro k h
    rw [mtM_eq, mget_setdefaultDict_mono _ _ _ h]
    exact h
  have upT : ∀ k, (mget (mtM inp st).1 k).isSome → (mget (mergeTopOpts inp st) k).isSome := by
    intro k h
    rw [mergeTopOpts_eq, mget_msetdefault_mono _ _ h]
    exact h
  intro k hk
  simp only [defaultedKeys, List.mem_cons, List.not_mem_nil, or_false] at hk
  rcases hk with rfl | rfl | rfl | rfl | rfl | rfl | rfl | rfl
  · exact upT _ (upM _ (upSA _ (upSB _ (upL _ (upB _ (upH _ hA))))))
  · exact upT _ (upM _ (upSA _ (upSB _ (upL _ (upB _ hH)))))
  · exact upT _ (upM _ (upSA _ (upSB _ (upL _ hB))))
  · exact upT _ (upM _ (upSA _ (upSB _ hL)))
  · exact upT _ (upM _ (upSA _ hSB))
  · exact upT _ (upM _ hSA)
  · exact upT _ hM
  · rw [mergeTopOpts_eq]
    exact mget_msetdefault_isSome _ _ _

theorem mergeTop_mono (inp : Option MObj) (st : MStore) {k : String}
    (h : (mget (optsOf inp) k).isSome) :
    mget (mergeTopOpts inp st) k = mget (optsOf inp) k := by
  have hA : mget (mtA inp) k = mget (optsOf inp) k := by
    rw [mtA_eq]; exact mget_msetdefault_mono _ _ h
  have hA2 : (mget (mtA inp) k).isSome := by rw [hA]; exact h
  have hH : mget (mtH inp st).1 k = mget (mtA inp) k := by
    rw [mtH_eq]; exact mget_setdefaultDict_mono _ _ _ hA2
  have hH2 : (mget (mtH inp st).1 k).isSome := by rw [hH]; exact hA2
  have hB : mget (mtB inp st).1 k = mget (mtH inp st).1 k := by
    rw [mtB_eq]; exact mget_setdefaultDict_mono _ _ _ hH2
  have hB2 : (mget (mtB inp st).1 k).isSome := by rw [hB]; exact hH2
  have hL : mget (mtL inp st) k = mget (mtB inp st).1 k := by
    rw [mtL_eq]; exact mget_msetdefault_mono _ _ hB2
  have hL2 : (mget (mtL inp st) k).isSome := by rw [hL]; exact hB2
  have hSB : mget (mtSB inp st) k = mget (mtL inp st) k := by
    rw [mtSB_eq]; exact mget_msetdefault_mono _ _ hL2
  have hSB2 : (mget (mtSB inp st) k).isSome := by rw [hSB]; exact hL2
  have hSA : mget (mtSA inp st) k = mget (mtSB inp st) k := by
    rw [mtSA_eq]; exact mget_msetdefault_mono _ _ hSB2
  have hSA2 : (mget (mtSA inp st) k).isSome := by rw [hSA]; exact hSB2
  have hM : mget (mtM inp st).1 k = mget (mtSA inp st) k := by
    rw [mtM_eq]; exact mget_setdefaultDict_mono _ _ _ hSA2
  have hM2 : (mget (mtM inp st).1 k).isSome := by rw [hM]; exact hSA2
  have hT : mget (mergeTopOpts inp st) k = mget (mtM inp st).1 k := by
    rw [mergeTopOpts_eq]; exact mget_msetdefault_mono _ _ hM2
  rw [hT, hM, hSA, hSB, hL, hB, hH, hA]

theorem mergeTop_untouched (inp : Option MObj) (st : MStore) {k : String}
    (h : k ∉ defaultedKeys) :
    mget (mergeTopOpts inp st) k = mget (optsOf inp) k := by
  simp only [defaultedKeys, List.mem_cons, List.not_mem_nil, or_false, not_or] at h
  obtain ⟨h1, h2, h3, h4, h5, h6, h7, h8⟩ := h
  rw [mergeTopOpts_eq, mget_msetdefault_ne _ h8, mtM_eq, mget_setdefaultDict_ne _ _ h7,
    mtSA_eq, mget_msetdefault_ne _ h6, mtSB_eq, mget_msetdefault_ne _ h5,
    mtL_eq, mget_msetdefault_ne _ h4, mtB_eq, mget_setdefaultDict_ne _ _ h3,
    mtH_eq, mget_setdefaultDict_ne _ _ h2, mtA_eq, mget_msetdefault_ne _ h1]

theorem mtH_store_le (inp : Option MObj) (st : MStore) :
    st.length ≤ (mtH inp st).2.length := by
  rw [mtH_eq]; exact setdefaultDict_store_le _ _ _ _

theorem mtB_store_le (inp : Option MObj) (st : MStore) :
    (mtH inp st).2.length ≤ (mtB inp st).2.length := by
  rw [mtB_eq]; exact setdefaultDict_store_le _ _ _ _

theorem mtM_store_le (inp : Option MObj) (st : MStore) :
    (mtB inp st).2.length ≤ (mtM inp st).2.length := by
  rw [mtM_eq]; exact setdefaultDict_store_le _ _ _ _

theorem mergeTop_store_le (inp : Option MObj) (st : MStore) :
    st.length ≤ (mergeTopStore inp st).length := by
  rw [mergeTopStore_eq]
  exact le_trans (mtH_store_le inp st) (le_trans (mtB_store_le inp st) (mtM_store_le inp st))

theorem mergeTop_store_get (inp : Option MObj) (st : MStore) {b : Nat}
    (hb : b < st.length) : (mergeTopStore inp st)[b]? = st[b]? := by
  have h1 : (mtH inp st).2[b]? = st[b]? := by
    rw [mtH_eq]; exact setdefaultDict_store_get _ _ _ _ hb
  have hb1 : b < (mtH inp st).2.length := lt_of_lt_of_le hb (mtH_store_le inp st)
  have h2 : (mtB inp st).2[b]? = (mtH inp st).2[b]? := by
    rw [mtB_eq]; exact setdefaultDict_store_get _ _ _ _ hb1
  have hb2 : b < (mtB inp st).2.length := lt_of_lt_of_le hb1 (mtB_store_le inp st)
  have h3 : (mtM inp st).2[b]? = (mtB inp st).2[b]? := by
    rw [mtM_eq]; exact setdefaultDict_store_get _ _ _ _ hb2
  rw [mergeTopStore_eq, h3, h2, h1]

/-- Where the resolved `Margins` reference points: either the
caller-supplied value is kept, or a fresh empty dict is allocated at the
end of the store after the font allocations. -/
theorem mergeTop_margins_cases (inp : Option MObj) (st : MStore) :
    (∃ v, mget (optsOf inp) "Margins" = some v ∧ mget (mergeTopOpts inp st) "Margins" = some v)
    ∨ (mget (optsOf inp) "Margins" = none ∧
        mget (mergeTopOpts inp st) "Margins" = some (.ref (mtB inp st).2.length) ∧
        (mergeTopStore inp st)[(mtB inp st).2.length]? = some ([] : MObj)) := by
  cases hm : mget (optsOf inp) "Margins" with
  | some v =>
    left
    exact ⟨v, rfl, by rw [mergeTop_mono inp st (by simp [hm])]; exact hm⟩
  | none =>
    right
    have hSA : mget (mtSA inp st) "Margins" = none := by
      rw [mtSA_eq, mget_msetdefault_ne _ (by decide), mtSB_eq, mget_msetdefault_ne _ (by decide),
        mtL_eq, mget_msetdefault_ne _ (by decide), mtB_eq, mget_setdefaultDict_ne _ _ (by decide),
        mtH_eq, mget_setdefaultDict_ne _ _ (by decide), mtA_eq, mget_msetdefault_ne _ (by decide)]
      exact hm
    have hMM : mtM inp st =
        ((mtSA inp st) ++ [("Margins", .ref (mtB inp st).2.length)],
          (mtB inp st).2 ++ [([] : MObj)]) := by
      rw [mtM_eq]
      unfold setdefaultDict
      rw [if_neg (by simp [hSA])]
    have hval : mget (mtM inp st).1 "Margins" = some (.ref (mtB inp st).2.length) := by
      rw [hMM]
      rw [mget_append_of_none _ hSA, mget_single_self]
    refine ⟨rfl, ?_, ?_⟩
    · rw [mergeTopOpts_eq, mget_msetdefault_mono _ _ (by simp [hval]), hval]
    · rw [mergeTopStore_eq, hMM]
      exact List.getElem?_concat_length _ _

theorem marginDefaults_eq (st : MStore) (a : Nat) :
    marginDefaults st a = storeSetdefault (storeSetdefault (storeSetdefault (storeSetdefault
      st a "Top" (.prim (.int 72))) a "Bottom" (.prim (.int 72)))
      a "Left" (.prim (.int 72))) a "Right" (.prim (.int 72)) := rfl

theorem marginDefaults_length (st : MStore) (a : Nat) :
    (marginDefaults st a).length = st.length := by
  rw [marginDefaults_eq, storeSetdefault_length, storeSetdefault_length,
    storeSetdefault_length, storeSetdefault_length]

theorem marginDefaults_get_ne {b a : Nat} (st : MStore) (h : b ≠ a) :
    (marginDefaults st a)[b]? = st[b]? := by
  rw [marginDefaults_eq, storeSetdefault_get_ne _ _ _ h, storeSetdefault_get_ne _ _ _ h,
    storeSetdefault_get_ne _ _ _ h, storeSetdefault_get_ne _ _ _ h]

theorem marginDefaults_self {st : MStore} {a : Nat} {cell : MObj}
    (hc : st[a]? = some cell) :
    ∃ cellM, (marginDefaults st a)[a]? = some cellM ∧
      (mget cellM "Top").isSome ∧ (mget cellM "Bottom").isSome ∧
      (mget cellM "Left").isSome ∧ (mget cellM "Right").isSome := by
  obtain ⟨c1, hc1, hT1, hm1⟩ := storeSetdefault_self "Top" (.prim (.int 72)) hc
  obtain ⟨c2, hc2, hB2, hm2⟩ := storeSetdefault_self "Bottom" (.prim (.int 72)) hc1
  obtain ⟨c3, hc3, hL3, hm3⟩ := storeSetdefault_self "Left" (.prim (.int 72)) hc2
  obtain ⟨c4, hc4, hR4, hm4⟩ := storeSetdefault_self "Right" (.prim (.int 72)) hc3
  have t2 : (mget c2 "Top").isSome := by rw [hm2 _ hT1]; exact hT1
  have t3 : (mget c3 "Top").isSome := by rw [hm3 _ t2]; exact t2
  have t4 : (mget c4 "Top").isSome := by rw [hm4 _ t3]; exact t3
  have b3 : (mget c3 "Bottom").isSome := by rw [hm3 _ hB2]; exact hB2
  have b4 : (mget c4 "Bottom").isSome := by rw [hm4 _ b3]; exact b3
  have l4 : (mget c4 "Left").isSome := by rw [hm4 _ hL3]; exact hL3
  exact ⟨c4, by rw [marginDefaults_eq]; exact hc4, t4, b4, l4, hR4⟩

theorem marginDefaults_noop {st : MStore} {a : Nat} {cell : MObj}
    (hc : st[a]? = some cell) (hT : (mget cell "Top").isSome)
    (hB : (mget cell "Bottom").isSome) (hL : (mget cell "Left").isSome)
    (hR : (mget cell "Right").isSome) :
    marginDefaults st a = st := by
  rw [marginDefaults_eq, storeSetdefault_noop _ hc hT, storeSetdefault_noop _ hc hB,
    storeSetdefault_noop _ hc hL, storeSetdefault_noop _ hc hR]

/-- Inversion of a successful `mergeOptions` run. -/
theorem mergeOptions_ok_inv {inp : Option MObj} {st : MStore} {e : MObj} {st' : MStore}
    (h : mergeOptions inp st = .ok (e, st')) :
    ∃ a, mget (mergeTopOpts inp st) "Margins" = some (.ref a) ∧
      a < (mergeTopStore inp st).length ∧
      e = mergeTopOpts inp st ∧ st' = marginDefaults (mergeTopStore inp st) a := by
  unfold mergeOptions at h
  split at h
  · rename_i a hm
    split at h
    · rename_i ha
      injection h with h2
      rw [Prod.mk.injEq] at h2
      exact ⟨a, hm, ha, h2.1.symm, h2.2.symm⟩
    · cases h
  · cases h
  · cases h

/-- When the caller supplies no `HeadingFont`, the resolver allocates the
default heading-font dict at the end of the original store. -/
theorem mergeTop_headingFont_default (inp : Option MObj) (st : MStore)
    (h0 : mget (optsOf inp) "HeadingFont" = none) :
    mget (mergeTopOpts inp st) "HeadingFont" = some (.ref st.length) ∧
    (mtH inp st).2.length = st.length + 1 ∧
    (mergeTopStore inp st)[st.length]? = some defaultHeadingFont := by
  have hA : mget (mtA inp) "HeadingFont" = none := by
    rw [mtA_eq, mget_msetdefault_ne _ (by decide)]
    exact h0
  have hH : mtH inp st = (mtA inp ++ [("HeadingFont", .ref st.length)],
      st ++ [defaultHeadingFont]) := by
    rw [mtH_eq]
    unfold setdefaultDict
    rw [if_neg (by simp [hA])]
  have hval : mget (mtH inp st).1 "HeadingFont" = some (.ref st.length) := by
    rw [hH, mget_append_of_none _ hA, mget_single_self]
  have hval2 : (mget (mtH inp st).1 "HeadingFont").isSome := by simp [hval]
  have hB : mget (mtB inp st).1 "HeadingFont" = mget (mtH inp st).1 "HeadingFont" := by
    rw [mtB_eq]; exact mget_setdefaultDict_mono _ _ _ hval2
  have hB2 : (mget (mtB inp st).1 "HeadingFont").isSome := by rw [hB]; exact hval2
  have hL : mget (mtL inp st) "HeadingFont" = mget (mtB inp st).1 "HeadingFont" := by
    rw [mtL_eq]; exact mget_msetdefault_mono _ _ hB2
  have hL2 : (mget (mtL inp st) "HeadingFont").isSome := by rw [hL]; exact hB2
  have hSB : mget (mtSB inp st) "HeadingFont" = mget (mtL inp st) "HeadingFont" := by
    rw [mtSB_eq]; exact mget_msetdefault_mono _ _ hL2
  have hSB2 : (mget (mtSB inp st) "HeadingFont").isSome := by rw [hSB]; exact hL2
  have hSA : mget (mtSA inp st) "HeadingFont" = mget (mtSB inp st) "HeadingFont" := by
    rw [mtSA_eq]; exact mget_msetdefault_mono _ _ hSB2
  have hSA2 : (mget (mtSA inp st) "HeadingFont").isSome := by rw [hSA]; exact hSB2
  have hM : mget (mtM inp st).1 "HeadingFont" = mget (mtSA inp st) "HeadingFont" := by
    rw [mtM_eq]; exact mget_setdefaultDict_mono _ _ _ hSA2
  have hM2 : (mget (mtM inp st).1 "HeadingFont").isSome := by rw [hM]; exact hSA2
  refine ⟨?_, ?_, ?_⟩
  · rw [mergeTopOpts_eq, mget_msetdefault_mono _ _ hM2, hM, hSA, hSB, hL, hB, hval]
  · rw [hH]
    simp
  · have hlen : st.length < (mtH inp st).2.length := by
      rw [hH]
      simp
    have s1 : (mtH inp st).2[st.length]? = some defaultHeadingFont := by
      rw [hH]
      exact List.getElem?_concat_length _ _
    have s2 : (mtB inp st).2[st.length]? = (mtH inp st).2[st.length]? := by
      rw [mtB_eq]; exact setdefaultDict_store_get _ _ _ _ hlen
    have hlen2 : st.length < (mtB inp st).2.length := lt_of_lt_of_le hlen (mtB_store_le inp st)
    have s3 : (mtM inp st).2[st.length]? = (mtB inp st).2[st.length]? := by
      rw [mtM_eq]; exact setdefaultDict_store_get _ _ _ _ hlen2
    rw [mergeTopStore_eq, s3, s2, s1]

/-- When the caller supplies no `BodyFont`, the resolver allocates the
default body-font dict right after the heading-font stage. -/
theorem mergeTop_bodyFont_default (inp : Option MObj) (st : MStore)
    (h0 : mget (optsOf inp) "BodyFont" = none) :
    mget (mergeTopOpts inp st) "BodyFont" = some (.ref (mtH inp st).2.length) ∧
    (mtB inp st).2.length = (mtH inp st).2.length + 1 ∧
    (mergeTopStore inp st)[(mtH inp st).2.length]? = some defaultBodyFont := by
  have hA : mget (mtA inp) "BodyFont" = none := by
    rw [mtA_eq, mget_msetdefault_ne _ (by decide)]
    exact h0
  have hHn : mget (mtH inp st).1 "BodyFont" = none := by
    rw [mtH_eq, mget_setdefaultDict_ne _ _ (by decide)]
    exact hA
  have hB : mtB inp st = ((mtH inp st).1 ++ [("BodyFont", .ref (mtH inp st).2.length)],
      (mtH inp st).2 ++ [defaultBodyFont]) := by
    rw [mtB_eq]
    unfold setdefaultDict
    rw [if_neg (by simp [hHn])]
  have hval : mget (mtB inp st).1 "BodyFont" = some (.ref (mtH inp st).2.length) := by
    rw [hB, mget_append_of_none _ hHn, mget_single_self]
  have hval2 : (mget (mtB inp st).1 "BodyFont").isSome := by simp [hval]
  have hL : mget (mtL inp st) "BodyFont" = mget (mtB inp st).1 "BodyFont" := by
    rw [mtL_eq]; exact mget_msetdefault_mono _ _ hval2
  have hL2 : (mget (mtL inp st) "BodyFont").isSome := by rw [hL]; exact hval2
  have hSB : mget (mtSB inp st) "BodyFont" = mget (mtL inp st) "BodyFont" := by
    rw [mtSB_eq]; exact mget_msetdefault_mono _ _ hL2
  have hSB2 : (mget (mtSB inp st) "BodyFont").isSome := by rw [hSB]; exact hL2
  have hSA : mget (mtSA inp st) "BodyFont" = mget (mtSB inp st) "BodyFont" := by
    rw [mtSA_eq]; exact mget_msetdefault_mono _ _ hSB2
  have hSA2 : (mget (mtSA inp st) "BodyFont").isSome := by rw [hSA]; exact hSB2
  have hM : mget (mtM inp st).1 "BodyFont" = mget (mtSA inp st) "BodyFont" := by
    rw [mtM_eq]; exact mget_setdefaultDict_mono _ _ _ hSA2
  have hM2 : (mget (mtM inp st).1 "BodyFont").isSome := by rw [hM]; exact hSA2
  refine ⟨?_, ?_, ?_⟩
  · rw [mergeTopOpts_eq, mget_msetdefault_mono _ _ hM2, hM, hSA, hSB, hL, hval]
  · rw [hB]
    simp
  · have hlen : (mtH inp st).2.length < (mtB inp st).2.length := by
      rw [hB]
      simp
    have s1 : (mtB inp st).2[(mtH inp st).2.length]? = some defaultBodyFont := by
      rw [hB]
      exact List.getElem?_concat_length _ _
    have s3 : (mtM inp st).2[(mtH inp st).2.length]? = (mtB inp st).2[(mtH inp st).2.length]? := by
      rw [mtM_eq]; exact setdefaultDict_store_get _ _ _ _ hlen
    rw [mergeTopStore_eq, s3, s1]



/-! ### Except-monad reduction helpers and table-layout lemmas -/

theorem except_bind_ok {ε α β : Type} (a : α) (f : α → Except ε β) :
    (Except.ok a >>= f) = f a := rfl

theorem except_bind_err {ε α β : Type} (e : ε) (f : α → Except ε β) :
    ((Except.error e : Except ε α) >>= f) = Except.error e := rfl

theorem except_pure_eq {ε α : Type} (a : α) : (pure a : Except ε α) = Except.ok a := rfl

theorem bodyRowsW_cons (l : List PyVal) (t : List PyVal) (n : Nat) :
    bodyRowsW (.list l :: t) n = (bodyRowsW t (n + 1)).map
      (fun restCells => (l.enum.map (fun e => ((n, e.1 + 1), pyStr e.2, false))) ++ restCells) := by
  cases h : bodyRowsW t (n + 1) with
  | error e =>
    show (do
      let rv ← pyIter (.list l)
      let cells := rv.enum.map (fun e : Nat × PyVal => ((n, e.1 + 1), pyStr e.2, false))
      let restCells ← bodyRowsW t (n + 1)
      Except.ok (cells ++ restCells)) = _
    rw [h]
    rfl
  | ok cells =>
    show (do
      let rv ← pyIter (.list l)
      let cells := rv.enum.map (fun e : Nat × PyVal => ((n, e.1 + 1), pyStr e.2, false))
      let restCells ← bodyRowsW t (n + 1)
      Except.ok (cells ++ restCells)) = _
    rw [h]
    rfl

theorem bodyRowsW_ok (L : List PyVal) (n : Nat) (h : ∀ r ∈ L, ∃ l, r = PyVal.list l) :
    ∃ cells, bodyRowsW L n = .ok cells := by
  induction L generalizing n with
  | nil => exact ⟨[], rfl⟩
  | cons a t ih =>
    obtain ⟨la, hla⟩ := h a (by simp)
    subst hla
    obtain ⟨ct, hct⟩ := ih (n + 1) (fun r hr => h r (by simp [hr]))
    rw [bodyRowsW_cons, hct]
    exact ⟨_, rfl⟩

/-- `_add_table` on a non-empty row list with a falsy (or absent)
header. -/
theorem addTable_rows_noheader (td : Obj) (opts : ROptions) (r0 : List PyVal) (rs : List PyVal)
    (h1 : (dget td "Rows").getD .none = PyVal.list (.list r0 :: rs))
    (hh : truthy ((dget td "Header").getD .none) = false) :
    addTable td opts = (do
      let bodyCells ← bodyRowsW (.list r0 :: rs) 1
      Except.ok (some { nrows := rs.length + 1, ncols := r0.length, style := opts.tableStyle,
                        fontName := opts.bodyFontName, fontSize := opts.bodyFontSize,
                        cells := ([] : List ((Nat × Nat) × String × Bool)) ++ bodyCells })) := by
  simp only [addTable]
  rw [h1, hh]
  rfl

/-- `_add_table` on a non-empty row list with a truthy list header. -/
theorem addTable_rows_header (td : Obj) (opts : ROptions) (r0 : List PyVal) (rs : List PyVal)
    (hs : List PyVal) (h1 : (dget td "Rows").getD .none = PyVal.list (.list r0 :: rs))
    (hh : (dget td "Header").getD .none = PyVal.list hs)
    (hht : truthy (PyVal.list hs) = true) :
    addTable td opts = (do
      let bodyCells ← bodyRowsW (.list r0 :: rs) 2
      Except.ok (some { nrows := (rs.length + 1) + 1, ncols := r0.length,
                        style := opts.tableStyle, fontName := opts.bodyFontName,
                        fontSize := opts.bodyFontSize,
                        cells := headerCellsW hs ++ bodyCells })) := by
  simp only [addTable]
  rw [h1, hh, hht]
  rfl

theorem addTable_skip (td : Obj) (opts : ROptions)
    (h : truthy ((dget td "Rows").getD .none) = false) :
    addTable td opts = .ok none := by
  simp only [addTable]
  rw [h]
  rfl

theorem renderTable_skip (td : Obj) (opts : ROptions)
    (h : truthy ((dget td "Rows").getD .none) = false) :
    renderTable td opts = .ok "" := by
  simp only [renderTable]
  rw [h]
  rfl

/-- C5: for a `TableSpec` with a non-empty row matrix the Word backend
creates a grid with `len(rows)` rows plus one when a truthy `Header` is
present, and `len(rows[0])` columns; a `TableSpec` whose `Rows` is empty
or absent produces no grid at all in either backend (`_add_table`
returns without adding, `_render_table` returns the empty string). -/
theorem table_layout_grid (td : Obj) (opts : ROptions) (r0 : List PyVal) (rs : List PyVal)
    (hrows : dget td "Rows" = some (.list (.list r0 :: rs)))
    (hlists : ∀ r ∈ rs, ∃ l, r = PyVal.list l)
    (hheader : (∃ hs, (dget td "Header").getD .none = PyVal.list hs) ∨
      truthy ((dget td "Header").getD .none) = false) :
    (∃ wt, addTable td opts = .ok (some wt) ∧
      wt.nrows = (rs.length + 1) + (if truthy ((dget td "Header").getD .none) then 1 else 0) ∧
      wt.ncols = r0.length) ∧
    (∀ (td2 : Obj) (opts2 : ROptions), truthy ((dget td2 "Rows").getD .none) = false →
      addTable td2 opts2 = .ok none ∧ renderTable td2 opts2 = .ok "") := by
  constructor
  · have h1 : (dget td "Rows").getD .none = PyVal.list (.list r0 :: rs) := by
      rw [hrows]
      rfl
    have hall : ∀ r ∈ PyVal.list r0 :: rs, ∃ l, r = PyVal.list l := by
      intro r hr
      rcases List.mem_cons.mp hr with rfl | h2
      · exact ⟨r0, rfl⟩
      · exact hlists r h2
    cases hht : truthy ((dget td "Header").getD .none) with
    | false =>
      obtain ⟨cells, hcells⟩ := bodyRowsW_ok (.list r0 :: rs) 1 hall
      rw [addTable_rows_noheader td opts r0 rs h1 hht, hcells, except_bind_ok]
      exact ⟨_, rfl, by simp [hht], rfl⟩
    | true =>
      rcases hheader with ⟨hs, hh⟩ | hcon
      · have hht2 : truthy (PyVal.list hs) = true := by rw [← hh]; exact hht
        obtain ⟨cells, hcells⟩ := bodyRowsW_ok (.list r0 :: rs) 2 hall
        rw [addTable_rows_header td opts r0 rs hs h1 hh hht2, hcells, except_bind_ok]
        exact ⟨_, rfl, by simp [hht], rfl⟩
      · rw [hcon] at hht
        cases hht
  · intro td2 opts2 h2
    exact ⟨addTable_skip td2 opts2 h2, renderTable_skip td2 opts2 h2⟩

end ReportGen

namespace ReportGen

/-- C7: `_merge_options` is idempotent — feeding a resolved options
dictionary back into the resolver returns the very same entries and
leaves the heap untouched, so
`_merge_options(_merge_options(x)) == _merge_options(x)` under Python
dictionary equality. -/
theorem merge_options_idempotent (inp : Option MObj) (st : MStore) (e : MObj) (st' : MStore)
    (h : mergeOptions inp st = .ok (e, st')) :
    mergeOptions (some e) st' = .ok (e, st') := by
  obtain ⟨a, hm, ha, he, hst⟩ := mergeOptions_ok_inv h
  have hpE : ∀ k ∈ defaultedKeys, (mget e k).isSome := by
    rw [he]; exact mergeTop_presence inp st
  have hk1 : (mget e "AddPageNums").isSome := hpE _ (by decide)
  have hk2 : (mget e "HeadingFont").isSome := hpE _ (by decide)
  have hk3 : (mget e "BodyFont").isSome := hpE _ (by decide)
  have hk4 : (mget e "LineSpacing").isSome := hpE _ (by decide)
  have hk5 : (mget e "SpaceBefore").isSome := hpE _ (by decide)
  have hk6 : (mget e "SpaceAfter").isSome := hpE _ (by decide)
  have hk7 : (mget e "Margins").isSome := hpE _ (by decide)
  have hk8 : (mget e "TableStyle").isSome := hpE _ (by decide)
  have hne : e.isEmpty = false := mget_isSome_ne_nil hk1
  have hoo : optsOf (some e) = e := by
    show (if e.isEmpty then ([] : MObj) else e) = e
    rw [if_neg (by simp [hne])]
  have hA2 : mtA (some e) = e := by
    rw [mtA_eq, hoo]
    exact msetdefault_of_isSome _ hk1
  have hH2 : mtH (some e) st' = (e, st') := by
    rw [mtH_eq, hA2]
    exact setdefaultDict_of_isSome _ _ hk2
  have hB2 : mtB (some e) st' = (e, st') := by
    rw [mtB_eq, hH2]
    exact setdefaultDict_of_isSome _ _ hk3
  have hL2 : mtL (some e) st' = e := by
    rw [mtL_eq, hB2]
    exact msetdefault_of_isSome _ hk4
  have hSB2 : mtSB (some e) st' = e := by
    rw [mtSB_eq, hL2]
    exact msetdefault_of_isSome _ hk5
  have hSA2 : mtSA (some e) st' = e := by
    rw [mtSA_eq, hSB2]
    exact msetdefault_of_isSome _ hk6
  have hM2 : mtM (some e) st' = (e, st') := by
    rw [mtM_eq, hSA2, hB2]
    exact setdefaultDict_of_isSome _ _ hk7
  have hTop : mergeTopOpts (some e) st' = e := by
    rw [mergeTopOpts_eq, hM2]
    exact msetdefault_of_isSome _ hk8
  have hStore : mergeTopStore (some e) st' = st' := by
    rw [mergeTopStore_eq, hM2]
  have hmE : mget e "Margins" = some (.ref a) := by rw [he]; exact hm
  have haE : a < st'.length := by
    rw [hst, marginDefaults_length]
    exact ha
  obtain ⟨cellM, hcM, hTk, hBk, hLk, hRk⟩ :=
    marginDefaults_self (List.getElem?_eq_getElem ha)
  have hcM' : st'[a]? = some cellM := by rw [hst]; exact hcM
  have hnoop : marginDefaults st' a = st' := marginDefaults_noop hcM' hTk hBk hLk hRk
  unfold mergeOptions
  rw [hTop, hStore, hmE]
  show (if a < st'.length then Except.ok (e, marginDefaults st' a)
    else Except.error ()) = Except.ok (e, st')
  rw [if_pos haE, hnoop]

/-- C3 (amended): after resolution the eight defaulted fields are
present, the `Margins` record is fully populated, the font groups are
fully populated whenever the caller omitted them, and every key outside
the defaulted eight (Author, Company, FooterText, Template, EmbedImages,
Placeholders, ...) is exactly as the caller left it — in particular it
stays absent when not supplied. -/
theorem merge_options_resolved_fields (inp : Option MObj) (st : MStore) (e : MObj)
    (st' : MStore) (h : mergeOptions inp st = .ok (e, st'))
    (hwf : ∀ b, mget (optsOf inp) "Margins" = some (.ref b) → b < st.length) :
    (∀ k ∈ defaultedKeys, (mget e k).isSome) ∧
    (∃ a cellM, mget e "Margins" = some (.ref a) ∧ st'[a]? = some cellM ∧
      (mget cellM "Top").isSome ∧ (mget cellM "Bottom").isSome ∧
      (mget cellM "Left").isSome ∧ (mget cellM "Right").isSome) ∧
    (mget (optsOf inp) "HeadingFont" = none →
      ∃ i, mget e "HeadingFont" = some (.ref i) ∧ st'[i]? = some defaultHeadingFont) ∧
    (mget (optsOf inp) "BodyFont" = none →
      ∃ i, mget e "BodyFont" = some (.ref i) ∧ st'[i]? = some defaultBodyFont) ∧
    (∀ k, k ∉ defaultedKeys → mget e k = mget (optsOf inp) k) := by
  obtain ⟨a, hm, ha, he, hst⟩ := mergeOptions_ok_inv h
  refine ⟨?_, ?_, ?_, ?_, ?_⟩
  · rw [he]; exact mergeTop_presence inp st
  · obtain ⟨cellM, hcM, h1, h2, h3, h4⟩ := marginDefaults_self (List.getElem?_eq_getElem ha)
    exact ⟨a, cellM, by rw [he]; exact hm, by rw [hst]; exact hcM, h1, h2, h3, h4⟩
  · intro h0
    obtain ⟨hv, hlen, hsf⟩ := mergeTop_headingFont_default inp st h0
    have hane : st.length ≠ a := by
      rcases mergeTop_margins_cases inp st with ⟨v, hv1, hv2⟩ | ⟨_, hf, _⟩
      · rw [hm] at hv2
        injection hv2 with hv2'
        subst hv2'
        have hlt := hwf a hv1
        omega
      · rw [hm] at hf
        injection hf with hf'
        injection hf' with hf2
        have hge : st.length + 1 ≤ (mtB inp st).2.length := by
          rw [← hlen]
          exact mtB_store_le inp st
        omega
    refine ⟨st.length, by rw [he]; exact hv, ?_⟩
    rw [hst, marginDefaults_get_ne _ hane]
    exact hsf
  · intro h0
    obtain ⟨hv, hlen, hsf⟩ := mergeTop_bodyFont_default inp st h0
    have hane : (mtH inp st).2.length ≠ a := by
      rcases mergeTop_margins_cases inp st with ⟨v, hv1, hv2⟩ | ⟨_, hf, _⟩
      · rw [hm] at hv2
        injection hv2 with hv2'
        subst hv2'
        have hlt := hwf a hv1
        have hle := mtH_store_le inp st
        omega
      · rw [hm] at hf
        injection hf with hf'
        injection hf' with hf2
        omega
    refine ⟨(mtH inp st).2.length, by rw [he]; exact hv, ?_⟩
    rw [hst, marginDefaults_get_ne _ hane]
    exact hsf
  · intro k hk
    rw [he]
    exact mergeTop_untouched inp st hk

/-- C3 (counterexample): resolving an empty options input succeeds, yet
the result has no `"Author"` entry — contradicting the claim that every
recognized field, `Author` included, has a value after resolution. -/
theorem merge_options_author_absent_counterexample :
    (match mergeOptions Option.none [] with
      | .ok (e, _) => mget e "Author"
      | .error _ => some (MVal.prim .none)) = Option.none := rfl

/-- C8 (amended): `_merge_options` leaves every heap cell other than the
one referenced by the caller's `Margins` entry unchanged — in particular
the caller's `HeadingFont`/`BodyFont` sub-dictionaries (when not aliased
to `Margins`) and everything else the caller owns; only the shared
`Margins` dictionary is completed in place. -/
theorem merge_options_frame (inp : Option MObj) (st : MStore) (e : MObj) (st' : MStore)
    (b : Nat) (h : mergeOptions inp st = .ok (e, st')) (hb : b < st.length)
    (hnm : mget (optsOf inp) "Margins" ≠ some (.ref b)) :
    st'[b]? = st[b]? := by
  obtain ⟨a, hm, ha, he, hst⟩ := mergeOptions_ok_inv h
  have hne : b ≠ a := by
    rcases mergeTop_margins_cases inp st with ⟨v, hv1, hv2⟩ | ⟨_, hf, _⟩
    · rw [hm] at hv2
      injection hv2 with hv2'
      subst hv2'
      intro hcon
      rw [← hcon] at hv1
      exact hnm hv1
    · rw [hm] at hf
      injection hf with hf'
      injection hf' with hf2
      have h1 : st.length ≤ (mtH inp st).2.length := mtH_store_le inp st
      have h2 : (mtH inp st).2.length ≤ (mtB inp st).2.length := mtB_store_le inp st
      omega
  rw [hst, marginDefaults_get_ne _ hne]
  exact mergeTop_store_get inp st hb

/-- C8 (counterexample): with a caller-supplied `Margins` dict holding
only `Top`, `_merge_options` mutates that very dictionary in place —
after the call the caller's nested `Margins` has gained `Bottom`,
`Left`, `Right`, because `options.copy()` is shallow. -/
theorem merge_options_mutates_caller_margins :
    (match mergeOptions (some [("Margins", MVal.ref 0)]) [[("Top", MVal.prim (.int 10))]] with
      | .ok (_, stOut) => stOut[0]?
      | .error _ => Option.none)
      = some [("Top", MVal.prim (.int 10)), ("Bottom", MVal.prim (.int 72)),
          ("Left", MVal.prim (.int 72)), ("Right", MVal.prim (.int 72))] ∧
    ([("Top", MVal.prim (.int 10)), ("Bottom", MVal.prim (.int 72)),
      ("Left", MVal.prim (.int 72)), ("Right", MVal.prim (.int 72))] : MObj) ≠
      [("Top", MVal.prim (.int 10))] :=
  ⟨rfl, fun hcon => absurd (congrArg List.length hcon) (by decide)⟩

theorem merge_options_idempotent_witness :
    mergeOptions (some mergeNoneOpts) mergeNoneStore = .ok (mergeNoneOpts, mergeNoneStore) :=
  merge_options_idempotent Option.none [] mergeNoneOpts mergeNoneStore (by rfl)

theorem merge_options_resolved_fields_witness :
    (∀ k ∈ defaultedKeys, (mget mergeNoneOpts k).isSome) ∧
    (∃ a cellM, mget mergeNoneOpts "Margins" = some (.ref a) ∧
      mergeNoneStore[a]? = some cellM ∧
      (mget cellM "Top").isSome ∧ (mget cellM "Bottom").isSome ∧
      (mget cellM "Left").isSome ∧ (mget cellM "Right").isSome) ∧
    (mget (optsOf Option.none) "HeadingFont" = none →
      ∃ i, mget mergeNoneOpts "HeadingFont" = some (.ref i) ∧
        mergeNoneStore[i]? = some defaultHeadingFont) ∧
    (mget (optsOf Option.none) "BodyFont" = none →
      ∃ i, mget mergeNoneOpts "BodyFont" = some (.ref i) ∧
        mergeNoneStore[i]? = some defaultBodyFont) ∧
    (∀ k, k ∉ defaultedKeys → mget mergeNoneOpts k = mget (optsOf Option.none) k) :=
  merge_options_resolved_fields Option.none [] mergeNoneOpts mergeNoneStore (by rfl)
    (fun _ hb => nomatch hb)





theorem merge_options_frame_witness :
    mergeFrameOutStore[0]? = mergeFrameStore[0]? :=
  merge_options_frame (some mergeFrameIn) mergeFrameStore mergeFrameOutOpts
    mergeFrameOutStore 0 (by rfl) (by decide) (fun hcon => nomatch hcon)

theorem es_bind_apply {α β : Type} (x : ES α) (f : α → ES β) (fs : FS) :
    (x >>= f) fs = (match x fs with
      | (.ok a, fs2) => f a fs2
      | (.error e, fs2) => (.error e, fs2)) := rfl

theorem es_pure_apply {α : Type} (a : α) (fs : FS) : (pure a : ES α) fs = (.ok a, fs) := rfl

theorem isInfix_refl (l : List Char) : l <:+: l := ⟨[], [], by simp⟩

theorem isInfix_app_r {l y : List Char} (x : List Char) (h : l <:+: y) : l <:+: x ++ y := by
  obtain ⟨s, t, hst⟩ := h
  exact ⟨x ++ s, t, by rw [← hst]; simp [List.append_assoc]⟩

theorem isInfix_app_l {l x : List Char} (y : List Char) (h : l <:+: x) : l <:+: x ++ y := by
  obtain ⟨s, t, hst⟩ := h
  exact ⟨s, t ++ y, by rw [← hst]; simp [List.append_assoc]⟩

/-- C4 (amended): figure row layout groups figures by effective row
index (`RowIndex` defaulting to 1 when unset or falsy): it emits exactly
one row per distinct index, in strictly ascending numeric order; within
each row the figures are the input figures carrying that index in their
original relative order (a stable filter); each emitted Word figure row
is borderless (`Borders.Enable = False`), but an HTML figure row is not
borderless: any non-empty rendered row carries the visible
`1px solid #999` table border (see the counterexample); and on the
spec's example with indices `[2, 1, 2, 1]` the result is row 1 holding
input entries 2 and 4 followed by row 2 holding input entries 1 and 3. -/
theorem figure_row_layout_grouping (figs : List Obj) (opts : ROptions) (fs : FS)
    (hint : ∀ f ∈ figs, ∃ n : Int, effRowIdx f = .int n) :
    (∃ ns : List Int, (layoutFigureRows figs).map Prod.fst = ns.map PyVal.int ∧
      List.Chain' (· < ·) ns) ∧
    (∀ v, v ∈ (layoutFigureRows figs).map Prod.fst ↔ v ∈ figs.map effRowIdx) ∧
    (∀ p ∈ layoutFigureRows figs, p.2 = figs.filter (fun f => pyEq (effRowIdx f) p.1)) ∧
    (∀ row w, addFigureRow row = .ok (some w) → w.bordersEnabled = false) ∧
    (∀ (row : List Obj) (w : String) (fs2 : FS), row ≠ [] →
      renderFigureRow row opts fs = (.ok w, fs2) → tableBorderStyle.data <:+: w.data) ∧
    layoutFigureRows exampleFigs =
      [(.int 1, [exampleFig2, exampleFig4]), (.int 2, [exampleFig1, exampleFig3])] := by
  have hintsR : ∀ v ∈ figs.map effRowIdx, ∃ n : Int, v = .int n := by
    intro v hv
    obtain ⟨f, hf, rfl⟩ := List.mem_map.mp hv
    exact hint f hf
  obtain ⟨⟨ns, hns, hchain⟩, hmem⟩ := sortedDedup_int hintsR
  refine ⟨⟨ns, by rw [layoutFigureRows_fst]; exact hns, hchain⟩, ?_, ?_, ?_, ?_, ?_⟩
  · intro v
    rw [layoutFigureRows_fst]
    exact hmem v
  · intro p hp
    unfold layoutFigureRows at hp
    obtain ⟨row, hrow, rfl⟩ := List.mem_map.mp hp
    exact zip_filter_map effRowIdx (fun v => pyEq v row) figs
  · intro row w h
    unfold addFigureRow at h
    by_cases he : row.isEmpty
    · rw [if_pos he] at h
      injection h with h2
      cases h2
    · rw [if_neg he] at h
      cases hc : figRowCellsW row with
      | error e =>
        rw [hc] at h
        exact Except.noConfusion h
      | ok cells =>
        rw [hc] at h
        injection h with h2
        injection h2 with h3
        rw [← h3]
  · intro row w fs2 hne hren
    have hemp : row.isEmpty = false := by
      cases row with
      | nil => exact absurd rfl hne
      | cons a t => rfl
    simp only [renderFigureRow, hemp, Bool.false_eq_true, if_false] at hren
    rw [es_bind_apply] at hren
    cases hcell : renderFigCells row opts fs with
    | mk r fs3 =>
      rw [hcell] at hren
      cases r with
      | error e =>
        injection hren with h1 h2
        exact Except.noConfusion h1
      | ok cells =>
        injection hren with h1 h2
        injection h1 with h1b
        subst h1b
        have hth : tableBorderStyle.data <:+: htmlTableStyle.data := by
          show tableBorderStyle.data <:+:
            ("border-collapse:collapse; width:100%; margin:12px 0; border: ".data ++
              tableBorderStyle.data) ++ ";".data
          exact isInfix_app_l _ (isInfix_app_r _ (isInfix_refl _))
        refine hth.trans ?_
        show htmlTableStyle.data <:+:
          (((((("<table style=\"".data ++ htmlTableStyle.data) ++ "\"><tbody>".data) ++
            "<tr>".data) ++ cells.data) ++ "</tr>".data) ++ "</tbody></table>".data)
        exact isInfix_app_l _ (isInfix_app_l _ (isInfix_app_l _ (isInfix_app_l _
          (isInfix_app_l _ (isInfix_app_r _ (isInfix_refl _))))))
  · rfl

set_option maxRecDepth 8000 in
/-- C4 (counterexample): the original claim calls every emitted figure
row borderless, but the HTML backend is not: rendering a one-figure row
through `_render_figure_row` produces HTML whose row table carries the
style `border: 1px solid #999` and whose cell carries
`border:1px solid #999` — a visible border, not a borderless row. -/
theorem figure_row_html_border :
    renderFigureRow [[("Path", PyVal.str "/img/a.png")]] {} emptyFS =
      (.ok ("<table style=\"" ++ htmlTableStyle ++ "\"><tbody>" ++ "<tr>" ++
        ("<td style=\"" ++ figCellStyle ++ "\">" ++
          "<img src=\"/img/a.png\" alt=\"\" style=\"max-width:100%; height:auto; display:block; margin:auto;\">" ++
          "</td>") ++ "</tr>" ++ "</tbody></table>"), emptyFS) ∧
    "border: 1px solid #999".data <:+: htmlTableStyle.data ∧
    "border:1px solid #999".data <:+: figCellStyle.data :=
  ⟨rfl, by decide, by decide⟩

theorem figure_row_layout_grouping_witness :
    (∃ ns : List Int, (layoutFigureRows exampleFigs).map Prod.fst = ns.map PyVal.int ∧
      List.Chain' (· < ·) ns) ∧
    (∀ v, v ∈ (layoutFigureRows exampleFigs).map Prod.fst ↔ v ∈ exampleFigs.map effRowIdx) ∧
    (∀ p ∈ layoutFigureRows exampleFigs,
      p.2 = exampleFigs.filter (fun f => pyEq (effRowIdx f) p.1)) ∧
    (∀ row w, addFigureRow row = .ok (some w) → w.bordersEnabled = false) ∧
    (∀ (row : List Obj) (w : String) (fs2 : FS), row ≠ [] →
      renderFigureRow row {} emptyFS = (.ok w, fs2) → tableBorderStyle.data <:+: w.data) ∧
    layoutFigureRows exampleFigs =
      [(.int 1, [exampleFig2, exampleFig4]), (.int 2, [exampleFig1, exampleFig3])] :=
  figure_row_layout_grouping exampleFigs {} emptyFS (by
    intro f hf
    simp only [exampleFigs, List.mem_cons, List.not_mem_nil, or_false] at hf
    rcases hf with rfl | rfl | rfl | rfl
    · exact ⟨2, rfl⟩
    · exact ⟨1, rfl⟩
    · exact ⟨2, rfl⟩
    · exact ⟨1, rfl⟩)

theorem table_layout_grid_witness :
    (∃ wt, addTable exampleTable {} = .ok (some wt) ∧
      wt.nrows = (([] : List PyVal).length + 1) +
        (if truthy ((dget exampleTable "Header").getD .none) then 1 else 0) ∧
      wt.ncols = ([PyVal.str "1", PyVal.str "2"] : List PyVal).length) ∧
    (∀ (td2 : Obj) (opts2 : ROptions), truthy ((dget td2 "Rows").getD .none) = false →
      addTable td2 opts2 = .ok none ∧ renderTable td2 opts2 = .ok "") :=
  table_layout_grid exampleTable {} [PyVal.str "1", PyVal.str "2"] []
    (by rfl) (fun r hr => absurd hr (List.not_mem_nil r))
    (Or.inl ⟨[PyVal.str "a", PyVal.str "b"], by rfl⟩)
/-! ### ES-monad reduction helpers and `_figure_src` -/

/-- C9 (amended): in the HTML backend, `_figure_src` inlines the image
as a base64 data URI (with the mime type read off the lower-cased
extension) exactly when the figure's own `Embed` value — defaulting to
the global `EmbedImages`, itself defaulting to `False` — is truthy; when
that effective flag is falsy the resolved path itself is referenced, and
an explicit falsy per-figure `Embed` therefore suppresses embedding even
when the global `EmbedImages` is set; a figure with a falsy path yields
an empty `src`. -/
theorem figure_src_embedding (fig : Obj) (opts : ROptions) (fs : FS) (p : String)
    (hpath : dget fig "Path" = some (.str p)) (hp : truthy (.str p) = true) :
    (∀ entry, truthy ((dget fig "Embed").getD (opts.embedImages.getD (.bool false))) = true →
      fs.files.find? (fun e => e.1 == p) = some entry →
      figureSrc fig opts fs =
        (.ok ("data:" ++ (if pngSuffix p then "image/png" else "image/jpeg") ++
          ";base64," ++ b64encode entry.2), fs)) ∧
    (truthy ((dget fig "Embed").getD (opts.embedImages.getD (.bool false))) = false →
      figureSrc fig opts fs = (.ok p, fs)) ∧
    (∀ (fig2 : Obj) (fs2 : FS), truthy ((dget fig2 "Path").getD .none) = false →
      figureSrc fig2 opts fs2 = (.ok "", fs2)) := by
  refine ⟨?_, ?_, ?_⟩
  · intro entry hembed hfile
    simp only [figureSrc, hpath, Option.getD_some, hp, Bool.not_true, Bool.false_eq_true,
      if_false, hembed, if_true, es_bind_apply, liftE, asStr, readFileBin, hfile,
      es_pure_apply]
  · intro hembed
    simp only [figureSrc, hpath, Option.getD_some, hp, Bool.not_true, Bool.false_eq_true,
      if_false, hembed, es_pure_apply]
    rfl
  · intro fig2 fs2 hfalse
    simp only [figureSrc, hfalse, Bool.not_false, if_true, es_pure_apply]

/-- C9 (counterexample): with the global `EmbedImages` truthy but the
figure's `Embed` explicitly `False`, `_figure_src` returns the plain
path — not a base64 data URI — so the per-figure flag overrides rather
than ORs with the global flag. -/
theorem figure_src_global_embed_ignored :
    figureSrc [("Path", .str "/img/a.png"), ("Embed", .bool false)]
        { embedImages := some (.bool true) } fsOneImage =
      (.ok "/img/a.png", fsOneImage) ∧
    "data:".data.isPrefixOf "/img/a.png".data = false :=
  ⟨rfl, rfl⟩

theorem figure_src_embedding_witness :
    ((∀ entry, truthy ((dget [("Path", PyVal.str "/img/a.png")] "Embed").getD
        (ROptions.embedImages { embedImages := some (.bool true) } |>.getD (.bool false))) = true →
      fsOneImage.files.find? (fun e => e.1 == "/img/a.png") = some entry →
      figureSrc [("Path", PyVal.str "/img/a.png")] { embedImages := some (.bool true) }
          fsOneImage =
        (.ok ("data:" ++ (if pngSuffix "/img/a.png" then "image/png" else "image/jpeg") ++
          ";base64," ++ b64encode entry.2), fsOneImage)) ∧
    (truthy ((dget [("Path", PyVal.str "/img/a.png")] "Embed").getD
        (ROptions.embedImages { embedImages := some (.bool true) } |>.getD (.bool false))) = false →
      figureSrc [("Path", PyVal.str "/img/a.png")] { embedImages := some (.bool true) }
          fsOneImage = (.ok "/img/a.png", fsOneImage)) ∧
    (∀ (fig2 : Obj) (fs2 : FS), truthy ((dget fig2 "Path").getD .none) = false →
      figureSrc fig2 { embedImages := some (.bool true) } fs2 = (.ok "", fs2))) ∧
    figureSrc [("Path", PyVal.str "/img/a.png")] { embedImages := some (.bool true) }
      fsOneImage =
      (.ok ("data:image/png;base64,AQID"), fsOneImage) := by
  constructor
  · exact figure_src_embedding [("Path", PyVal.str "/img/a.png")]
      { embedImages := some (.bool true) } fsOneImage "/img/a.png" (by rfl) (by rfl)
  · have h := (figure_src_embedding [("Path", PyVal.str "/img/a.png")]
      { embedImages := some (.bool true) } fsOneImage "/img/a.png" (by rfl) (by rfl)).1
      ("/img/a.png", [1, 2, 3]) (by rfl) (by rfl)
    rw [h]
    rfl
/-! ### Placeholder elision and resource cleanup -/

/-- C1 (counterexample): a malformed placeholder payload aborts
`generate_html_report` instead of degrading to empty content: the dict
payload `{"Foo": 1, "Bar": 2}` has more than one key, so
`_render_placeholder` routes it to `_render_figures`, whose
normalization raises `ValueError` — the whole render call fails (the
payload is rendered even though no token occurs in the document). -/
theorem malformed_placeholder_aborts_render :
    (match generateHtmlReport "/out/report.html" "T" []
        { placeholders := some [("X", badPayload)] } emptyFS with
      | (.error _, _) => true
      | (.ok _, _) => false) = true := rfl

/-- C1 (amended): `_render_placeholder` replaces with empty content
exactly the payloads that are neither strings nor dicts, and the dict
payloads with no truthy `Rows`, no truthy `Path` and at most one key;
a string payload renders as its escaped text and a dict payload with
truthy `Rows` renders as a table; but a dict payload with a truthy
`Path` or more than one key is treated as a figure set, and when it has
no usable image source the resulting `ValueError` aborts the render
(see the counterexample). -/
theorem render_placeholder_elision (name : String) (payload : PyVal) (opts : ROptions)
    (fs : FS) :
    (((∀ es, payload ≠ .dict es) ∧ (∀ s, payload ≠ .str s)) →
      renderPlaceholder name payload opts fs = (.ok "", fs)) ∧
    (∀ es, payload = .dict es → truthy ((dget es "Rows").getD .none) = false →
      truthy ((dget es "Path").getD .none) = false → es.length ≤ 1 →
      renderPlaceholder name payload opts fs = (.ok "", fs)) ∧
    (∀ s, payload = .str s →
      renderPlaceholder name payload opts fs = (.ok (htmlEscape s), fs)) ∧
    (∀ es, payload = .dict es → truthy ((dget es "Rows").getD .none) = true →
      renderPlaceholder name payload opts fs = (renderTable es opts, fs)) := by
  refine ⟨?_, ?_, ?_, ?_⟩
  · rintro ⟨hnd, hns⟩
    cases payload with
    | dict es => exact absurd rfl (hnd es)
    | str s => exact absurd rfl (hns s)
    | none => rfl
    | bool b => rfl
    | int n => rfl
    | rat q => rfl
    | list xs => rfl
    | figure id => rfl
  · rintro es rfl hrows hpath hlen
    have hlen2 : decide (es.length > 1) = false := by
      simp only [decide_eq_false_iff_not]
      omega
    simp only [renderPlaceholder, hrows, hpath, hlen2, Bool.or_self, Bool.false_eq_true,
      if_false, es_pure_apply]
  · rintro s rfl
    rfl
  · rintro es rfl hrows
    simp only [renderPlaceholder, hrows, if_true]
    rfl

theorem render_placeholder_elision_witness :
    renderPlaceholder "X" (.dict [("Caption", .str "c")]) {} emptyFS = (.ok "", emptyFS) :=
  (render_placeholder_elision "X" (.dict [("Caption", .str "c")]) {} emptyFS).2.1
    [("Caption", .str "c")] rfl (by rfl) (by rfl) (by decide)

/-- C2 (code bug): `_render_figures` calls `_normalize_figures` *before*
entering the `try/finally` that deletes the recorded temporary files, so
when a later figure of the same list is invalid the `ValueError` escapes
before any cleanup ran: `generate_html_report` fails and the temporary
PNG materialized for the first figure is still present on the filesystem
when the call returns — contradicting the guaranteed-cleanup claim. -/
theorem temp_file_leak_on_failed_normalization :
    (match generateHtmlReport "/out/report.html" "T" [leakSection] {} emptyFS with
      | (.error _, fsOut) => fsIsFile fsOut "/tmp/pytmp0.png"
      | (.ok _, _) => false) = true := rfl
/-! ### Greedy replacement: split/join characterization and chunk freeness -/

theorem isEmpty_false_of_ne_nil {l : List Char} (h : l ≠ []) : l.isEmpty = false := by
  cases l with
  | nil => exact absurd rfl h
  | cons a t => rfl

theorem isPrefixOf_true_iff {l₁ l₂ : List Char} : l₁.isPrefixOf l₂ = true ↔ l₁ <+: l₂ :=
  List.isPrefixOf_iff_prefix

theorem splitFuel_ne_nil (pat : List Char) (fuel : Nat) (s : List Char) :
    splitFuel pat fuel s ≠ [] := by
  induction fuel generalizing s with
  | zero =>
    cases s with
    | nil => simp [splitFuel]
    | cons c rest => simp [splitFuel]
  | succ n ih =>
    cases s with
    | nil => simp [splitFuel]
    | cons c rest =>
      simp only [splitFuel]
      by_cases hc : (!pat.isEmpty && pat.isPrefixOf (c :: rest)) = true
      · rw [if_pos hc]
        exact List.cons_ne_nil _ _
      · rw [if_neg hc]
        cases hsp : splitFuel pat n rest with
        | nil => exact absurd hsp (ih rest)
        | cons ch t => simp [consHead]

theorem joinWith_consHead (r : List Char) (c : Char) (l : List (List Char)) (h : l ≠ []) :
    joinWith r (consHead c l) = c :: joinWith r l := by
  cases l with
  | nil => exact absurd rfl h
  | cons ch t =>
    cases t with
    | nil => rfl
    | cons b t2 => rfl

theorem replaceFuel_eq_joinWith (pat rep : List Char) (fuel : Nat) (s : List Char) :
    replaceFuel pat rep fuel s = joinWith rep (splitFuel pat fuel s) := by
  induction fuel generalizing s with
  | zero =>
    cases s with
    | nil => rfl
    | cons c rest => rfl
  | succ n ih =>
    cases s with
    | nil => rfl
    | cons c rest =>
      simp only [replaceFuel, splitFuel]
      by_cases hc : (!pat.isEmpty && pat.isPrefixOf (c :: rest)) = true
      · rw [if_pos hc, if_pos hc, ih]
        cases hsp : splitFuel pat n ((c :: rest).drop pat.length) with
        | nil => exact absurd hsp (splitFuel_ne_nil pat n _)
        | cons ch t => rfl
      · rw [if_neg hc, if_neg hc, ih, joinWith_consHead rep c _ (splitFuel_ne_nil pat n rest)]

theorem splitFuel_head_pre (pat : List Char) :
    ∀ fuel s ch t, splitFuel pat fuel s = ch :: t → ch <+: s := by
  intro fuel
  induction fuel with
  | zero =>
    intro s ch t h
    cases s with
    | nil =>
      simp only [splitFuel] at h
      injection h with h1 h2
      subst h1
      exact ⟨[], rfl⟩
    | cons c rest =>
      simp only [splitFuel] at h
      injection h with h1 h2
      subst h1
      exact ⟨[], List.append_nil _⟩
  | succ n ih =>
    intro s ch t h
    cases s with
    | nil =>
      simp only [splitFuel] at h
      injection h with h1 h2
      subst h1
      exact ⟨[], rfl⟩
    | cons c rest =>
      simp only [splitFuel] at h
      by_cases hc : (!pat.isEmpty && pat.isPrefixOf (c :: rest)) = true
      · rw [if_pos hc] at h
        injection h with h1 h2
        subst h1
        exact ⟨c :: rest, rfl⟩
      · rw [if_neg hc] at h
        cases hsp : splitFuel pat n rest with
        | nil => exact absurd hsp (splitFuel_ne_nil pat n rest)
        | cons ch2 t2 =>
          rw [hsp] at h
          simp only [consHead] at h
          injection h with h1 h2
          subst h1
          exact List.cons_prefix_cons.mpr ⟨rfl, ih rest ch2 t2 hsp⟩

theorem splitFuel_chunk_free (pat : List Char) (hpat : pat ≠ []) :
    ∀ fuel s, s.length ≤ fuel → ∀ chunk ∈ splitFuel pat fuel s, ¬ pat <:+: chunk := by
  intro fuel
  induction fuel with
  | zero =>
    intro s hs chunk hm
    cases s with
    | nil =>
      simp only [splitFuel, List.mem_singleton] at hm
      subst hm
      intro hinf
      exact hpat (List.eq_nil_of_infix_nil hinf)
    | cons c rest =>
      simp only [List.length_cons] at hs
      omega
  | succ n ih =>
    intro s hs chunk hm
    cases s with
    | nil =>
      simp only [splitFuel, List.mem_singleton] at hm
      subst hm
      intro hinf
      exact hpat (List.eq_nil_of_infix_nil hinf)
    | cons c rest =>
      have hr : rest.length ≤ n := by
        simp only [List.length_cons] at hs
        omega
      simp only [splitFuel] at hm
      by_cases hc : (!pat.isEmpty && pat.isPrefixOf (c :: rest)) = true
      · rw [if_pos hc] at hm
        rcases List.mem_cons.mp hm with h1 | h2
        · subst h1
          intro hinf
          exact hpat (List.eq_nil_of_infix_nil hinf)
        · have hd : ((c :: rest).drop pat.length).length ≤ n := by
            rw [List.length_drop]
            simp only [List.length_cons]
            have hpl : 0 < pat.length := List.length_pos.mpr hpat
            omega
          exact ih _ hd chunk h2
      · rw [if_neg hc] at hm
        have hnp : ¬ pat <+: (c :: rest) := by
          intro hp
          apply hc
          rw [Bool.and_eq_true]
          refine ⟨?_, isPrefixOf_true_iff.mpr hp⟩
          rw [isEmpty_false_of_ne_nil hpat]
          rfl
        cases hsp : splitFuel pat n rest with
        | nil => exact absurd hsp (splitFuel_ne_nil pat n rest)
        | cons ch2 t2 =>
          rw [hsp] at hm
          simp only [consHead] at hm
          rcases List.mem_cons.mp hm with h1 | h2
          · subst h1
            intro hinf
            obtain ⟨s₁, t₁, hst⟩ := hinf
            cases s₁ with
            | nil =>
              have hpre : pat <+: c :: ch2 := ⟨t₁, hst⟩
              have hch : ch2 <+: rest := splitFuel_head_pre pat n rest ch2 t2 hsp
              exact hnp (hpre.trans (List.cons_prefix_cons.mpr ⟨rfl, hch⟩))
            | cons a s₁ =>
              injection hst with he htail
              exact ih rest hr ch2 (by rw [hsp]; exact List.mem_cons_self ch2 t2)
                ⟨s₁, t₁, htail⟩
          · exact ih rest hr chunk (by rw [hsp]; exact List.mem_cons_of_mem _ h2)

theorem pyReplaceL_eq_joinWith (pat rep s : List Char) (hpat : pat ≠ []) :
    pyReplaceL pat rep s = joinWith rep (pySplitL pat s) := by
  simp only [pyReplaceL, pySplitL, isEmpty_false_of_ne_nil hpat, Bool.false_eq_true, if_false]
  exact replaceFuel_eq_joinWith pat rep s.length s

theorem tokenOf_ne_nil (X : String) : (tokenOf X).data ≠ [] := by
  intro h
  have h2 : "\x7b\x7b".data ++ (X ++ "\x7d\x7d").data = [] := h
  have h3 := List.append_eq_nil.mp h2
  exact absurd h3.1 (by decide)

theorem replacePlaceholdersAux_single (X S content : String) (opts : ROptions) (fs : FS) :
    replacePlaceholdersAux [(X, PyVal.str S)] content opts fs =
      (.ok (pyReplaceS content (tokenOf X) (htmlEscape S)), fs) := rfl

/-- C6 (amended): for a placeholder `X` whose payload is the plain
string `S`, `_replace_placeholders_html` replaces each greedily matched,
non-overlapping occurrence of the token of `X` in the content by exactly
the HTML-escaped payload, keeping the chunks between occurrences
verbatim; no chunk between matched occurrences itself contains the
token. A residual token can nevertheless remain in the final output,
either because the escaped payload contains the token or because
splicing a retained chunk against the substituted payload re-creates it
at a replacement boundary (see the counterexample). -/
theorem placeholder_string_roundtrip (X S content : String) (opts : ROptions) (fs : FS)
    (hp : opts.placeholders = some [(X, PyVal.str S)]) :
    replacePlaceholdersHtml content opts fs =
      (.ok ⟨joinWith (htmlEscape S).data (pySplitL (tokenOf X).data content.data)⟩, fs) ∧
    ∀ chunk ∈ pySplitL (tokenOf X).data content.data, ¬ (tokenOf X).data <:+: chunk := by
  constructor
  · simp only [replacePlaceholdersHtml, hp, Option.getD_some]
    rw [replacePlaceholdersAux_single]
    simp only [pyReplaceS]
    rw [pyReplaceL_eq_joinWith _ _ _ (tokenOf_ne_nil X)]
  · intro chunk hm
    simp only [pySplitL, isEmpty_false_of_ne_nil (tokenOf_ne_nil X), Bool.false_eq_true,
      if_false] at hm
    exact splitFuel_chunk_free (tokenOf X).data (tokenOf_ne_nil X) content.data.length
      content.data (le_refl _) chunk hm

theorem placeholder_string_roundtrip_witness :
    replacePlaceholdersHtml "a\x7b\x7bX\x7d\x7db"
        { placeholders := some [("X", PyVal.str "hello")] } emptyFS =
      (.ok ⟨joinWith (htmlEscape "hello").data
        (pySplitL (tokenOf "X").data "a\x7b\x7bX\x7d\x7db".data)⟩, emptyFS) ∧
    ∀ chunk ∈ pySplitL (tokenOf "X").data "a\x7b\x7bX\x7d\x7db".data,
      ¬ (tokenOf "X").data <:+: chunk :=
  placeholder_string_roundtrip "X" "hello" "a\x7b\x7bX\x7d\x7db"
    { placeholders := some [("X", PyVal.str "hello")] } emptyFS rfl

/-- C6 (counterexample): the payload string consisting of one opening
brace, the name and two closing braces does not contain the token of
`X`, yet replacing in a content of three opening braces, the name and
two closing braces yields exactly the token of `X` as the whole output:
the retained chunk (a single opening brace) spliced against the
substituted payload re-creates a residual token, refuting the claim
that no residual token remains in the output. -/
theorem placeholder_residual_token :
    replacePlaceholdersHtml "\x7b\x7b\x7bX\x7d\x7d"
        { placeholders := some [("X", PyVal.str "\x7bX\x7d\x7d")] } emptyFS =
      (.ok (tokenOf "X"), emptyFS) ∧
    ¬ (tokenOf "X").data <:+: (htmlEscape "\x7bX\x7d\x7d").data :=
  ⟨rfl, by decide⟩
/-! ### HTML escaping: character safety and sink routing -/

theorem replaceFuel_mem (pat rep : List Char) :
    ∀ fuel s, ∀ d ∈ replaceFuel pat rep fuel s, d ∈ rep ∨ d ∈ s := by
  intro fuel
  induction fuel with
  | zero =>
    intro s d hd
    cases s with
    | nil => exact absurd hd (List.not_mem_nil d)
    | cons c rest => exact Or.inr hd
  | succ n ih =>
    intro s d hd
    cases s with
    | nil => exact absurd hd (List.not_mem_nil d)
    | cons c rest =>
      simp only [replaceFuel] at hd
      by_cases hc : (!pat.isEmpty && pat.isPrefixOf (c :: rest)) = true
      · rw [if_pos hc] at hd
        rcases List.mem_append.mp hd with h | h
        · exact Or.inl h
        · rcases ih _ d h with h2 | h2
          · exact Or.inl h2
          · exact Or.inr (List.drop_subset _ _ h2)
      · rw [if_neg hc] at hd
        rcases List.mem_cons.mp hd with rfl | h
        · exact Or.inr (List.mem_cons_self _ _)
        · rcases ih rest d h with h2 | h2
          · exact Or.inl h2
          · exact Or.inr (List.mem_cons_of_mem _ h2)

theorem pyReplaceL_mem (pat rep s : List Char) (d : Char) (hd : d ∈ pyReplaceL pat rep s) :
    d ∈ rep ∨ d ∈ s := by
  simp only [pyReplaceL] at hd
  by_cases hp : pat.isEmpty = true
  · rw [if_pos hp] at hd
    rcases List.mem_append.mp hd with h | h
    · exact Or.inl h
    · rcases List.mem_flatten.mp h with ⟨l, hl, hdl⟩
      rcases List.mem_map.mp hl with ⟨c, hc, rfl⟩
      rcases List.mem_cons.mp hdl with rfl | h2
      · exact Or.inr hc
      · exact Or.inl h2
  · rw [if_neg hp] at hd
    exact replaceFuel_mem pat rep s.length s d hd

theorem pyReplaceL_stage_pres (pat rep s : List Char) (d : Char)
    (hrep : ∀ c ∈ rep, c ≠ d) (hs : ∀ c ∈ s, c ≠ d) :
    ∀ c ∈ pyReplaceL pat rep s, c ≠ d :=
  fun c hc => (pyReplaceL_mem pat rep s c hc).elim (hrep c) (hs c)

theorem replaceFuel_single_elim (p : Char) (rep : List Char) :
    ∀ fuel s, s.length ≤ fuel → ∀ d ∈ replaceFuel [p] rep fuel s, d ∈ rep ∨ (d ∈ s ∧ d ≠ p) := by
  intro fuel
  induction fuel with
  | zero =>
    intro s hs d hd
    cases s with
    | nil => exact absurd hd (List.not_mem_nil d)
    | cons c rest =>
      simp only [List.length_cons] at hs
      omega
  | succ n ih =>
    intro s hs d hd
    cases s with
    | nil => exact absurd hd (List.not_mem_nil d)
    | cons c rest =>
      have hr : rest.length ≤ n := by
        simp only [List.length_cons] at hs
        omega
      simp only [replaceFuel] at hd
      by_cases hc : (!([p].isEmpty) && [p].isPrefixOf (c :: rest)) = true
      · rw [if_pos hc] at hd
        rcases List.mem_append.mp hd with h | h
        · exact Or.inl h
        · rcases ih rest hr d h with h2 | h2
          · exact Or.inl h2
          · exact Or.inr ⟨List.mem_cons_of_mem _ h2.1, h2.2⟩
      · rw [if_neg hc] at hd
        have hpc : p ≠ c := by
          intro he
          apply hc
          subst he
          simp [List.isPrefixOf]
        rcases List.mem_cons.mp hd with rfl | h
        · exact Or.inr ⟨List.mem_cons_self _ _, fun he => hpc he.symm⟩
        · rcases ih rest hr d h with h2 | h2
          · exact Or.inl h2
          · exact Or.inr ⟨List.mem_cons_of_mem _ h2.1, h2.2⟩

theorem pyReplaceL_single_no (p : Char) (rep s : List Char) (hrep : ∀ c ∈ rep, c ≠ p) :
    ∀ c ∈ pyReplaceL [p] rep s, c ≠ p := by
  intro c hc
  simp only [pyReplaceL, List.isEmpty_cons, Bool.false_eq_true, if_false] at hc
  rcases replaceFuel_single_elim p rep s.length s (le_refl _) c hc with h | h
  · exact hrep c h
  · exact h.2

theorem htmlEscape_no_markup (s : String) :
    ∀ c ∈ (htmlEscape s).data,
      c ≠ Char.ofNat 60 ∧ c ≠ Char.ofNat 62 ∧ c ≠ Char.ofNat 34 ∧ c ≠ Char.ofNat 39 := by
  intro c hc
  have hc5 : c ∈ pyReplaceL "\x27".data "&#x27;".data
      (pyReplaceL "\"".data "&quot;".data
        (pyReplaceL ">".data "&gt;".data
          (pyReplaceL "<".data "&lt;".data
            (pyReplaceL "&".data "&amp;".data s.data)))) := hc
  refine ⟨?_, ?_, ?_, ?_⟩
  · exact pyReplaceL_stage_pres _ _ _ _ (by decide)
      (pyReplaceL_stage_pres _ _ _ _ (by decide)
        (pyReplaceL_stage_pres _ _ _ _ (by decide)
          (pyReplaceL_single_no (Char.ofNat 60) "&lt;".data _ (by decide)))) c hc5
  · exact pyReplaceL_stage_pres _ _ _ _ (by decide)
      (pyReplaceL_stage_pres _ _ _ _ (by decide)
        (pyReplaceL_single_no (Char.ofNat 62) "&gt;".data _ (by decide))) c hc5
  · exact pyReplaceL_stage_pres _ _ _ _ (by decide)
      (pyReplaceL_single_no (Char.ofNat 34) "&quot;".data _ (by decide)) c hc5
  · exact pyReplaceL_single_no (Char.ofNat 39) "&#x27;".data _ (by decide) c hc5

theorem escapeOrPlaceholder_plain (w : PyVal) (opts : ROptions) (fs : FS)
    (hw : "\x7b\x7b".data.isPrefixOf (pyStr w).data = false) :
    escapeOrPlaceholder w opts fs = (.ok (htmlEscape (pyStr w)), fs) := by
  simp only [escapeOrPlaceholder, hw, Bool.false_and, Bool.false_eq_true, if_false,
    es_pure_apply]

theorem escapeOrPlaceholder_unknown (w : PyVal) (opts : ROptions) (fs : FS)
    (hw : dget (opts.placeholders.getD []) (innerName (pyStr w)) = none) :
    escapeOrPlaceholder w opts fs = (.ok (htmlEscape (pyStr w)), fs) := by
  simp only [escapeOrPlaceholder]
  by_cases hq : ("\x7b\x7b".data.isPrefixOf (pyStr w).data &&
      "\x7d\x7d".data.isSuffixOf (pyStr w).data) = true
  · rw [if_pos hq, hw]
    rfl
  · rw [if_neg hq]
    rfl

/-- C10: in the HTML backend the user-text sinks all escape: the output
of `html.escape` contains no raw angle bracket, double quote or
apostrophe character, and the report title (document head), section
titles, table header and body cells, figure captions, paragraph and
bullet text (when not a known placeholder token) and plain-string
placeholder payloads are each routed through it, so markup characters in
input text are rendered literally. -/
theorem html_escape_routing (opts : ROptions) (fs : FS) :
    (∀ s : String, ∀ c ∈ (htmlEscape s).data,
      c ≠ Char.ofNat 60 ∧ c ≠ Char.ofNat 62 ∧ c ≠ Char.ofNat 34 ∧ c ≠ Char.ofNat 39) ∧
    (∀ w : PyVal, "\x7b\x7b".data.isPrefixOf (pyStr w).data = false →
      escapeOrPlaceholder w opts fs = (.ok (htmlEscape (pyStr w)), fs)) ∧
    (∀ w : PyVal, dget (opts.placeholders.getD []) (innerName (pyStr w)) = none →
      escapeOrPlaceholder w opts fs = (.ok (htmlEscape (pyStr w)), fs)) ∧
    (∀ w : PyVal, "\x7b\x7b".data.isPrefixOf (pyStr w).data = false →
      paragraphChunk w opts fs = (.ok (pOpen opts ++ htmlEscape (pyStr w) ++ "</p>"), fs)) ∧
    (∀ w : PyVal, "\x7b\x7b".data.isPrefixOf (pyStr w).data = false →
      bulletChunk w opts fs = (.ok ("<li>" ++ htmlEscape (pyStr w) ++ "</li>"), fs)) ∧
    (∀ title : PyVal, sectionTitleHtml title opts =
      h2Open opts ++ htmlEscape (pyStr title) ++ "</h2>") ∧
    (∀ (style : String) (v : PyVal) (rest : List PyVal),
      renderHeaderCells style (v :: rest) =
        "<th style=\"" ++ style ++ "; font-weight:bold;\">" ++ htmlEscape (pyStr v) ++
          "</th>" ++ renderHeaderCells style rest) ∧
    (∀ (style : String) (v : PyVal) (rest : List PyVal),
      renderBodyCells style (v :: rest) =
        "<td style=\"" ++ style ++ "\">" ++ htmlEscape (pyStr v) ++ "</td>" ++
          renderBodyCells style rest) ∧
    (∀ fig : Obj, truthy ((dget fig "Caption").getD .none) = true →
      figCaption fig = htmlEscape (pyStr ((dget fig "Caption").getD (.str "")))) ∧
    (∀ (nm s : String), renderPlaceholder nm (.str s) opts fs = (.ok (htmlEscape s), fs)) ∧
    (∃ pre post : String, ∀ t : String, htmlHead t = pre ++ htmlEscape t ++ post) := by
  refine ⟨?_, ?_, ?_, ?_, ?_, ?_, ?_, ?_, ?_, ?_, ?_⟩
  · exact htmlEscape_no_markup
  · exact fun w hw => escapeOrPlaceholder_plain w opts fs hw
  · exact fun w hw => escapeOrPlaceholder_unknown w opts fs hw
  · intro w hw
    simp only [paragraphChunk]
    rw [es_bind_apply, escapeOrPlaceholder_plain w opts fs hw]
    rfl
  · intro w hw
    simp only [bulletChunk]
    rw [es_bind_apply, escapeOrPlaceholder_plain w opts fs hw]
    rfl
  · intro title
    rfl
  · intro style v rest
    rfl
  · intro style v rest
    rfl
  · intro fig h
    simp only [figCaption]
    rw [if_pos h]
  · intro nm s
    rfl
  · refine ⟨"<!DOCTYPE html>" ++ "<html lang=\"zh-CN\">" ++ "<head>" ++
      "<meta http-equiv=\"X-UA-Compatible\" content=\"IE=edge\">" ++
      "<meta charset=\"UTF-8\">" ++ "<title>", "</title>" ++ "</head>", fun t => ?_⟩
    exact String.append_assoc _ _ _

theorem html_escape_routing_witness :
    escapeOrPlaceholder (PyVal.str "a<b") {} emptyFS =
      (.ok (htmlEscape "a<b"), emptyFS) ∧
    paragraphChunk (PyVal.str "a<b") {} emptyFS =
      (.ok (pOpen {} ++ htmlEscape "a<b" ++ "</p>"), emptyFS) ∧
    figCaption [("Caption", PyVal.str "t<t")] = htmlEscape "t<t" ∧
    ∀ c ∈ (htmlEscape "a<b").data,
      c ≠ Char.ofNat 60 ∧ c ≠ Char.ofNat 62 ∧ c ≠ Char.ofNat 34 ∧ c ≠ Char.ofNat 39 :=
  ⟨(html_escape_routing {} emptyFS).2.1 (PyVal.str "a<b") rfl,
   (html_escape_routing {} emptyFS).2.2.2.1 (PyVal.str "a<b") rfl,
   (html_escape_routing {} emptyFS).2.2.2.2.2.2.2.2.1 [("Caption", PyVal.str "t<t")] rfl,
   (html_escape_routing {} emptyFS).1 "a<b"⟩


end ReportGen
